import Mathlib

/-!
Shallow embedding of the reconciliation / cascading-deletion subsystem of the
vibecord repository (Convex backend: `convex/auth.ts`, `convex/servers.ts`,
`convex/channels.ts`, and the channel-deletion / friendship modules).

Rows of the document store are Lean structures; every row carries its
store-assigned `_id` (`id`) and, where the source reads it, the store-assigned
insertion sequence `_creationTime` (`creationTime`).  Index range lookups are
modelled as list filters over the store in index order (the concrete stores
used in witnesses list rows in index order), `take n` is `List.take`, and
Convex's `.unique()` — which throws when more than one row matches — is
modelled as an `Except` value.  Timestamps are `Nat`.
-/

set_option linter.unusedVariables false

/-- A `sessions` row (`_id`, `_creationTime`, userId, tokenHash, createdAt, expiresAt). -/
structure Session where
  id : Nat
  creationTime : Nat
  userId : Nat
  tokenHash : String
  createdAt : Nat
  expiresAt : Nat
  deriving Repr, DecidableEq

/-- A `users` row. -/
structure User where
  id : Nat
  creationTime : Nat
  loginName : String
  loginNameLower : String
  createdAt : Nat
  deriving Repr, DecidableEq

/-- A `channels` row. -/
structure Channel where
  id : Nat
  creationTime : Nat
  serverId : Nat
  name : String
  nameLower : String
  createdBy : Nat
  createdAt : Nat
  deriving Repr, DecidableEq

/-- A `friendships` row. -/
structure Friendship where
  id : Nat
  creationTime : Nat
  userAId : Nat
  userBId : Nat
  pairKey : String
  createdAt : Nat
  deriving Repr, DecidableEq

/-- A `messages` row. -/
structure Message where
  id : Nat
  channelId : Nat
  authorId : Nat
  createdAt : Nat
  deriving Repr, DecidableEq

/-- A `servers` row. -/
structure Server where
  id : Nat
  name : String
  ownerId : Nat
  createdAt : Nat
  deriving Repr, DecidableEq

/-- A `serverMemberships` row. -/
structure ServerMembership where
  id : Nat
  serverId : Nat
  userId : Nat
  joinedAt : Nat
  deriving Repr, DecidableEq

/-- Embeds `deletionOperations.target`. -/
inductive OpTarget where
  | server
  | channel
  deriving Repr, DecidableEq

/-- Embeds `deletionOperations.status`. -/
inductive OpStatus where
  | in_progress
  | completed
  deriving Repr, DecidableEq

/-- A `deletionOperations` row. -/
structure Operation where
  id : Nat
  target : OpTarget
  requestedBy : Nat
  serverId : Option Nat
  channelId : Option Nat
  status : OpStatus
  deletedMessages : Nat
  deletedChannels : Nat
  deletedMemberships : Nat
  deletedServers : Nat
  createdAt : Nat
  updatedAt : Nat
  completedAt : Option Nat
  deriving Repr, DecidableEq

/-- The document store.  `nextId` supplies fresh `_id`s for inserts. -/
structure DB where
  users : List User
  sessions : List Session
  servers : List Server
  memberships : List ServerMembership
  channels : List Channel
  messages : List Message
  operations : List Operation
  nextId : Nat
  deriving Repr, DecidableEq

/-! ## Reconciliation resolvers (`convex/auth.ts`, and the reduce callbacks
inlined in `createChannel` / `upsertFriendship`). -/

/-- The reduce callback of `selectMostRecentSession` (auth.ts lines 76-86):
latest expiry, then latest creation, then store insertion sequence. -/
def sessionReduce (latest candidate : Session) : Session :=
  if candidate.expiresAt ≠ latest.expiresAt then
    if candidate.expiresAt > latest.expiresAt then candidate else latest
  else if candidate.createdAt ≠ latest.createdAt then
    if candidate.createdAt > latest.createdAt then candidate else latest
  else if candidate.creationTime > latest.creationTime then candidate else latest

/-- Embeds `selectMostRecentSession` (auth.ts lines 69-87): `rows.reduce(sessionReduce)`,
`null` on the empty list. -/
def selectMostRecentSession : List Session → Option Session
  | [] => none
  | a :: rest => some (rest.foldl sessionReduce a)

/-- The reduce callback of `selectMostRecentUser` (auth.ts lines 94-102):
latest creation, then store insertion sequence. -/
def userReduce (latest candidate : User) : User :=
  if candidate.createdAt ≠ latest.createdAt then
    if candidate.createdAt > latest.createdAt then candidate else latest
  else if candidate.creationTime > latest.creationTime then candidate else latest

/-- Embeds `selectMostRecentUser` (auth.ts lines 89-103). -/
def selectMostRecentUser : List User → Option User
  | [] => none
  | a :: rest => some (rest.foldl userReduce a)

/-- The reduce callback inlined in `createChannel`'s duplicate janitor
(channels.ts lines 128-130): keeps the EARLIEST-created row; on an equal
`createdAt` it keeps the accumulator, i.e. the earlier row of the input order. -/
def channelReduce (earliest candidate : Channel) : Channel :=
  if candidate.createdAt < earliest.createdAt then candidate else earliest

/-- The canonical-channel pick of `createChannel`'s duplicate janitor:
`existingChannels.reduce(channelReduce)`. -/
def canonicalChannel : List Channel → Option Channel
  | [] => none
  | a :: rest => some (rest.foldl channelReduce a)

/-- The reduce callback inlined in `upsertFriendship`'s duplicate janitor
(friends module lines 68-70): keeps the EARLIEST-created row. -/
def friendshipReduce (earliest candidate : Friendship) : Friendship :=
  if candidate.createdAt < earliest.createdAt then candidate else earliest

/-- The canonical-friendship pick of `upsertFriendship`'s duplicate janitor. -/
def canonicalFriendship : List Friendship → Option Friendship
  | [] => none
  | a :: rest => some (rest.foldl friendshipReduce a)

/-! ## Generic argmax-by-key machinery used to reason about the reduce folds. -/

/-- Fold that keeps the element with the largest `key`, preferring the
accumulator on ties. -/
def bestBy {α β : Type} [LinearOrder β] (key : α → β) (a : α) (l : List α) : α :=
  l.foldl (fun acc c => if key acc < key c then c else acc) a

theorem bestBy_cons {α β : Type} [LinearOrder β] (key : α → β) (a b : α) (t : List α) :
    bestBy key a (b :: t) = bestBy key (if key a < key b then b else a) t := by
  simp [bestBy]

theorem bestBy_mem {α β : Type} [LinearOrder β] (key : α → β) (a : α) (l : List α) :
    bestBy key a l ∈ a :: l := by
  induction l generalizing a with
  | nil => simp [bestBy]
  | cons b t ih =>
    rw [bestBy_cons]
    have h' := ih (if key a < key b then b else a)
    rcases List.mem_cons.mp h' with h₁ | h₁
    · rw [h₁]
      split <;> simp
    · simp [List.mem_cons.mpr (Or.inr h₁), List.mem_cons]

theorem key_le_bestBy {α β : Type} [LinearOrder β] (key : α → β) (a : α) (l : List α) :
    ∀ x ∈ a :: l, key x ≤ key (bestBy key a l) := by
  induction l generalizing a with
  | nil => intro x hx; simp at hx; simp [bestBy, hx]
  | cons b t ih =>
    intro x hx
    have step := bestBy_cons key a b t
    have hab : key a ≤ key (if key a < key b then b else a) := by
      split <;> simp_all [le_of_lt]
    have hbb : key b ≤ key (if key a < key b then b else a) := by
      split
      · exact le_rfl
      · exact le_of_not_lt (by assumption)
    have hacc := ih (if key a < key b then b else a)
    rcases List.mem_cons.mp hx with rfl | hx₁
    · exact step ▸ le_trans hab (hacc _ (List.mem_cons_self _ _))
    · rcases List.mem_cons.mp hx₁ with rfl | hx₂
      · exact step ▸ le_trans hbb (hacc _ (List.mem_cons_self _ _))
      · exact step ▸ hacc _ (List.mem_cons.mpr (Or.inr hx₂))

theorem bestBy_perm {α β : Type} [LinearOrder β] (key : α → β)
    (a₁ a₂ : α) (l₁ l₂ : List α) (hp : (a₁ :: l₁).Perm (a₂ :: l₂))
    (hinj : ∀ x ∈ a₁ :: l₁, ∀ y ∈ a₁ :: l₁, key x = key y → x = y) :
    bestBy key a₁ l₁ = bestBy key a₂ l₂ := by
  have m₁ := bestBy_mem key a₁ l₁
  have m₂ := bestBy_mem key a₂ l₂
  have m₁' : bestBy key a₁ l₁ ∈ a₂ :: l₂ := hp.mem_iff.mp m₁
  have m₂' : bestBy key a₂ l₂ ∈ a₁ :: l₁ := hp.mem_iff.mpr m₂
  have h₁ : key (bestBy key a₁ l₁) ≤ key (bestBy key a₂ l₂) :=
    key_le_bestBy key a₂ l₂ _ m₁'
  have h₂ : key (bestBy key a₂ l₂) ≤ key (bestBy key a₁ l₁) :=
    key_le_bestBy key a₁ l₁ _ m₂'
  exact hinj _ m₁ _ m₂' (le_antisymm h₁ h₂)

/-! ### Keys for the concrete resolvers -/

/-- Session tie-break key: (expiresAt, createdAt, creationTime), lexicographic. -/
def sessionKey (s : Session) : Lex (Nat × Lex (Nat × Nat)) :=
  toLex (s.expiresAt, toLex (s.createdAt, s.creationTime))

/-- User tie-break key: (createdAt, creationTime), lexicographic. -/
def userKey (u : User) : Lex (Nat × Nat) :=
  toLex (u.createdAt, u.creationTime)

/-- Channel janitor key: earliest createdAt wins, so the key is the dual order. -/
def channelKey (c : Channel) : OrderDual Nat :=
  OrderDual.toDual c.createdAt

/-- Friendship janitor key: earliest createdAt wins. -/
def friendshipKey (f : Friendship) : OrderDual Nat :=
  OrderDual.toDual f.createdAt

theorem sessionKey_lt_iff (x y : Session) :
    sessionKey x < sessionKey y ↔
      (x.expiresAt < y.expiresAt ∨ (x.expiresAt = y.expiresAt ∧
        (x.createdAt < y.createdAt ∨ (x.createdAt = y.createdAt ∧
          x.creationTime < y.creationTime)))) := by
  simp [sessionKey, Prod.Lex.lt_iff]

theorem userKey_lt_iff (x y : User) :
    userKey x < userKey y ↔
      (x.createdAt < y.createdAt ∨ (x.createdAt = y.createdAt ∧
        x.creationTime < y.creationTime)) := by
  simp [userKey, Prod.Lex.lt_iff]

theorem channelKey_lt_iff (x y : Channel) :
    channelKey x < channelKey y ↔ y.createdAt < x.createdAt := by
  simp [channelKey]

theorem friendshipKey_lt_iff (x y : Friendship) :
    friendshipKey x < friendshipKey y ↔ y.createdAt < x.createdAt := by
  simp [friendshipKey]

theorem sessionReduce_eq_best (l c : Session) :
    sessionReduce l c = if sessionKey l < sessionKey c then c else l := by
  unfold sessionReduce
  split_ifs <;>
    first
      | rfl
      | (exfalso
         simp only [sessionKey_lt_iff] at *
         omega)

theorem userReduce_eq_best (l c : User) :
    userReduce l c = if userKey l < userKey c then c else l := by
  unfold userReduce
  split_ifs <;>
    first
      | rfl
      | (exfalso
         simp only [userKey_lt_iff] at *
         omega)

theorem channelReduce_eq_best (l c : Channel) :
    channelReduce l c = if channelKey l < channelKey c then c else l := by
  unfold channelReduce
  split_ifs <;>
    first
      | rfl
      | (exfalso
         simp only [channelKey_lt_iff] at *
         omega)

theorem friendshipReduce_eq_best (l c : Friendship) :
    friendshipReduce l c = if friendshipKey l < friendshipKey c then c else l := by
  unfold friendshipReduce
  split_ifs <;>
    first
      | rfl
      | (exfalso
         simp only [friendshipKey_lt_iff] at *
         omega)

theorem selectMostRecentSession_eq_bestBy (a : Session) (l : List Session) :
    selectMostRecentSession (a :: l) = some (bestBy sessionKey a l) := by
  have hf : sessionReduce = fun acc c => if sessionKey acc < sessionKey c then c else acc := by
    funext x y
    exact sessionReduce_eq_best x y
  unfold selectMostRecentSession bestBy
  rw [hf]

theorem selectMostRecentUser_eq_bestBy (a : User) (l : List User) :
    selectMostRecentUser (a :: l) = some (bestBy userKey a l) := by
  have hf : userReduce = fun acc c => if userKey acc < userKey c then c else acc := by
    funext x y
    exact userReduce_eq_best x y
  unfold selectMostRecentUser bestBy
  rw [hf]

theorem canonicalChannel_eq_bestBy (a : Channel) (l : List Channel) :
    canonicalChannel (a :: l) = some (bestBy channelKey a l) := by
  have hf : channelReduce = fun acc c => if channelKey acc < channelKey c then c else acc := by
    funext x y
    exact channelReduce_eq_best x y
  unfold canonicalChannel bestBy
  rw [hf]

theorem canonicalFriendship_eq_bestBy (a : Friendship) (l : List Friendship) :
    canonicalFriendship (a :: l) = some (bestBy friendshipKey a l) := by
  have hf : friendshipReduce = fun acc c => if friendshipKey acc < friendshipKey c then c else acc := by
    funext x y
    exact friendshipReduce_eq_best x y
  unfold canonicalFriendship bestBy
  rw [hf]

/-! ## Store queries and write helpers -/

def DB.getServer (db : DB) (sid : Nat) : Option Server :=
  db.servers.find? (fun s => s.id == sid)

def DB.getChannel (db : DB) (cid : Nat) : Option Channel :=
  db.channels.find? (fun c => c.id == cid)

def DB.getUser (db : DB) (uid : Nat) : Option User :=
  db.users.find? (fun u => u.id == uid)

def DB.getOperation (db : DB) (oid : Nat) : Option Operation :=
  db.operations.find? (fun o => o.id == oid)

/-- Index `channels.by_server_id_created_at`, equality prefix on serverId. -/
def channelsByServer (db : DB) (sid : Nat) : List Channel :=
  db.channels.filter (fun c => c.serverId == sid)

/-- Index `messages.by_channel_id_created_at`, equality prefix on channelId. -/
def messagesByChannel (db : DB) (cid : Nat) : List Message :=
  db.messages.filter (fun m => m.channelId == cid)

/-- Index `serverMemberships.by_server_id_user_id`, equality prefix on serverId. -/
def membershipsByServer (db : DB) (sid : Nat) : List ServerMembership :=
  db.memberships.filter (fun m => m.serverId == sid)

/-- Index `sessions.by_token_hash` equality lookup. -/
def sessionsByTokenHash (db : DB) (hashValue : String) : List Session :=
  db.sessions.filter (fun s => s.tokenHash == hashValue)

def DB.deleteMessagesByIds (db : DB) (ids : List Nat) : DB :=
  { db with messages := db.messages.filter (fun m => !(ids.contains m.id)) }

def DB.deleteChannelsByIds (db : DB) (ids : List Nat) : DB :=
  { db with channels := db.channels.filter (fun c => !(ids.contains c.id)) }

def DB.deleteMembershipsByIds (db : DB) (ids : List Nat) : DB :=
  { db with memberships := db.memberships.filter (fun m => !(ids.contains m.id)) }

def DB.deleteServerById (db : DB) (sid : Nat) : DB :=
  { db with servers := db.servers.filter (fun s => !(s.id == sid)) }

def DB.deleteChannelById (db : DB) (cid : Nat) : DB :=
  { db with channels := db.channels.filter (fun c => !(c.id == cid)) }

def DB.deleteSessionById (db : DB) (sid : Nat) : DB :=
  { db with sessions := db.sessions.filter (fun s => !(s.id == sid)) }

/-- Embeds `ctx.db.patch` on a deletionOperations row, addressed by `_id`. -/
def DB.patchOp (db : DB) (oid : Nat) (f : Operation → Operation) : DB :=
  { db with operations := db.operations.map (fun o => if o.id = oid then f o else o) }

/-! ## Scheduler model -/

inductive SchedFn where
  | serverBatch
  | channelBatch
  deriving Repr, DecidableEq

/-- One `ctx.scheduler.runAfter(delayMs, fn, { operationId })` call emitted by a
mutation. -/
structure Sched where
  fn : SchedFn
  delayMs : Nat
  operationId : Nat
  deriving Repr, DecidableEq

def SERVER_DELETE_MESSAGE_BATCH_SIZE : Nat := 200
def SERVER_DELETE_CHANNEL_BATCH_SIZE : Nat := 40
def SERVER_DELETE_MEMBERSHIP_BATCH_SIZE : Nat := 200
def SERVER_DELETE_CHANNEL_SCAN_BATCH_SIZE : Nat := 20
def CHANNEL_DELETE_MESSAGE_BATCH_SIZE : Nat := 200

/-! ## The batch step executors (`runServerDeletionBatch`,
`runChannelDeletionBatch`).  Both are total: the source's only throw paths are
store-call failures, which are outside the model. -/

/-- The per-channel loop body of `deleteServerMessageBatch` (servers.ts
lines 411-433): walks the scanned channels, deleting up to `remaining`
messages in total. -/
def serverMessageGo : List Channel → DB → Nat → Nat → DB × Nat
  | [], db, _, deleted => (db, deleted)
  | c :: rest, db, remaining, deleted =>
    if remaining = 0 then (db, deleted)
    else
      let msgs := (messagesByChannel db c.id).take remaining
      if msgs.length = 0 then serverMessageGo rest db remaining deleted
      else
        serverMessageGo rest (db.deleteMessagesByIds (msgs.map Message.id))
          (remaining - msgs.length) (deleted + msgs.length)

/-- Embeds `deleteServerMessageBatch` (servers.ts lines 402-436): scans only the first
`SERVER_DELETE_CHANNEL_SCAN_BATCH_SIZE` channels of the server. -/
def deleteServerMessageBatch (db : DB) (serverId : Nat) : DB × Nat :=
  serverMessageGo ((channelsByServer db serverId).take SERVER_DELETE_CHANNEL_SCAN_BATCH_SIZE)
    db SERVER_DELETE_MESSAGE_BATCH_SIZE 0

/-- Embeds `runServerDeletionBatch` (servers.ts lines 227-319): one scheduler
invocation of the server-deletion step chain. -/
def runServerDeletionBatch (operationId now : Nat) (db : DB) : DB × List Sched :=
  match db.getOperation operationId with
  | none => (db, [])
  | some operation =>
    if operation.status = OpStatus.completed ∨ operation.target ≠ OpTarget.server then (db, [])
    else
      match operation.serverId with
      | none =>
        (db.patchOp operation.id (fun o =>
          { o with status := OpStatus.completed, completedAt := some now, updatedAt := now }), [])
      | some serverId =>
        match db.getServer serverId with
        | none =>
          (db.patchOp operation.id (fun o =>
            { o with status := OpStatus.completed, completedAt := some now, updatedAt := now }), [])
        | some _ =>
          let r := deleteServerMessageBatch db serverId
          if 0 < r.2 then
            (r.1.patchOp operation.id (fun o =>
              { o with deletedMessages := operation.deletedMessages + r.2, updatedAt := now }),
             [⟨SchedFn.serverBatch, 0, operation.id⟩])
          else
            let channels := (channelsByServer r.1 serverId).take SERVER_DELETE_CHANNEL_BATCH_SIZE
            if 0 < channels.length then
              ((r.1.deleteChannelsByIds (channels.map Channel.id)).patchOp operation.id (fun o =>
                { o with deletedChannels := operation.deletedChannels + channels.length,
                         updatedAt := now }),
               [⟨SchedFn.serverBatch, 0, operation.id⟩])
            else
              let memberships :=
                (membershipsByServer r.1 serverId).take SERVER_DELETE_MEMBERSHIP_BATCH_SIZE
              if 0 < memberships.length then
                ((r.1.deleteMembershipsByIds (memberships.map ServerMembership.id)).patchOp
                  operation.id (fun o =>
                    { o with deletedMemberships := operation.deletedMemberships + memberships.length,
                             updatedAt := now }),
                 [⟨SchedFn.serverBatch, 0, operation.id⟩])
              else
                ((r.1.deleteServerById serverId).patchOp operation.id (fun o =>
                  { o with status := OpStatus.completed,
                           deletedServers := operation.deletedServers + 1,
                           completedAt := some now, updatedAt := now }), [])

/-- Embeds `runChannelDeletionBatch` (channel-deletion module lines 203-272). -/
def runChannelDeletionBatch (operationId now : Nat) (db : DB) : DB × List Sched :=
  match db.getOperation operationId with
  | none => (db, [])
  | some operation =>
    if operation.status = OpStatus.completed ∨ operation.target ≠ OpTarget.channel then (db, [])
    else
      match operation.channelId with
      | none =>
        (db.patchOp operation.id (fun o =>
          { o with status := OpStatus.completed, completedAt := some now, updatedAt := now }), [])
      | some channelId =>
        match db.getChannel channelId with
        | none =>
          (db.patchOp operation.id (fun o =>
            { o with status := OpStatus.completed, completedAt := some now, updatedAt := now }), [])
        | some _ =>
          let batch := (messagesByChannel db channelId).take CHANNEL_DELETE_MESSAGE_BATCH_SIZE
          if 0 < batch.length then
            ((db.deleteMessagesByIds (batch.map Message.id)).patchOp operation.id (fun o =>
              { o with deletedMessages := operation.deletedMessages + batch.length,
                       updatedAt := now }),
             [⟨SchedFn.channelBatch, 0, operation.id⟩])
          else
            ((db.deleteChannelById channelId).patchOp operation.id (fun o =>
              { o with status := OpStatus.completed,
                       deletedChannels := operation.deletedChannels + 1,
                       completedAt := some now, updatedAt := now }), [])

/-! ## Authentication readers and client-facing mutations -/

def isHexDigit (c : Char) : Bool :=
  c.isDigit || ('a' ≤ c && c ≤ 'f') || ('A' ≤ c && c ≤ 'F')

/-- Embeds `isValidSessionToken`: exactly 64 characters, all hexadecimal. -/
def isValidSessionToken (value : String) : Bool :=
  value.length == 64 && value.toList.all isHexDigit

/-- Convex `.unique()`: `none` on no match, the row on one match, and a thrown
error when more than one row matches. -/
def uniqueQ {α : Type} : List α → Except String (Option α)
  | [] => Except.ok none
  | [a] => Except.ok (some a)
  | _ => Except.error "unique() query returned more than one result"

namespace Servers

/-- Embeds `getAuthenticatedUser` in servers.ts (lines 33-58) and in the
channel-deletion module (lines 30-55), which are textually identical: the
session lookup uses `.unique()`, so it fails when more than one session row
shares the token hash.  `hash` abstracts the external SHA-256 primitive. -/
def getAuthenticatedUser (hash : String → String) (db : DB) (now : Nat)
    (sessionToken : String) : Except String Nat :=
  if !(isValidSessionToken sessionToken) then
    Except.error "You must be logged in to continue."
  else
    match uniqueQ (sessionsByTokenHash db (hash sessionToken)) with
    | Except.error e => Except.error e
    | Except.ok none => Except.error "You must be logged in to continue."
    | Except.ok (some session) =>
      if session.expiresAt < now then Except.error "You must be logged in to continue."
      else
        match db.getUser session.userId with
        | none => Except.error "You must be logged in to continue."
        | some user => Except.ok user.id

end Servers

/-- One comparison step of the `.order("desc").take(1)` pick below. -/
def latestStep (acc : Option Operation) (o : Operation) : Option Operation :=
  match acc with
  | none => some o
  | some a => if a.updatedAt ≤ o.updatedAt then some o else some a

/-- Embeds `.order("desc").take(1)` over an `updatedAt`-keyed index range: the row with
the greatest `updatedAt`, later-inserted rows winning ties. -/
def latestByUpdatedAt (l : List Operation) : Option Operation :=
  l.foldl latestStep none

/-- Embeds `getActiveServerDeletionOperation` (servers.ts lines 438-451). -/
def getActiveServerDeletionOperation (db : DB) (sid : Nat) : Option Operation :=
  latestByUpdatedAt (db.operations.filter (fun o =>
    o.serverId == some sid && o.status == OpStatus.in_progress))

/-- Embeds `getActiveChannelDeletionOperation` (channel-deletion module lines 324-337). -/
def getActiveChannelDeletionOperation (db : DB) (cid : Nat) : Option Operation :=
  latestByUpdatedAt (db.operations.filter (fun o =>
    o.channelId == some cid && o.status == OpStatus.in_progress))

/-- The client-facing result shape of `toServerDeletionResponse`. -/
structure ServerDeletionResponse where
  ok : Bool
  operationId : Nat
  serverId : Option Nat
  status : OpStatus
  deletedMessages : Nat
  deletedChannels : Nat
  deletedMemberships : Nat
  deletedServers : Nat
  completedAt : Option Nat
  deriving Repr, DecidableEq

def toServerDeletionResponse (op : Operation) : ServerDeletionResponse :=
  { ok := true, operationId := op.id, serverId := op.serverId, status := op.status,
    deletedMessages := op.deletedMessages, deletedChannels := op.deletedChannels,
    deletedMemberships := op.deletedMemberships, deletedServers := op.deletedServers,
    completedAt := op.completedAt }

/-- The client-facing result shape of `toChannelDeletionResponse`. -/
structure ChannelDeletionResponse where
  ok : Bool
  operationId : Nat
  channelId : Option Nat
  serverId : Option Nat
  status : OpStatus
  deletedMessages : Nat
  deletedChannels : Nat
  completedAt : Option Nat
  deriving Repr, DecidableEq

def toChannelDeletionResponse (op : Operation) : ChannelDeletionResponse :=
  { ok := true, operationId := op.id, channelId := op.channelId, serverId := op.serverId,
    status := op.status, deletedMessages := op.deletedMessages,
    deletedChannels := op.deletedChannels, completedAt := op.completedAt }

/-- Outcome of one Convex mutation: the returned (or thrown) value, the store
after the call, and the scheduler calls it made.  On a throw the store carried
here is the store at the throw point; in the embedded mutations every throw
precedes the first write, so it equals the input store. -/
structure MutOut (ρ : Type) where
  result : Except String ρ
  db : DB
  sched : List Sched

namespace Servers

/-- Embeds `deleteServer` (servers.ts lines 170-225). -/
def deleteServer (hash : String → String) (now : Nat) (sessionToken : String)
    (serverId : Nat) (db : DB) : MutOut ServerDeletionResponse :=
  match getAuthenticatedUser hash db now sessionToken with
  | Except.error e => ⟨Except.error e, db, []⟩
  | Except.ok userId =>
    match db.getServer serverId with
    | none => ⟨Except.error "Server not found.", db, []⟩
    | some server =>
      if server.ownerId ≠ userId then
        ⟨Except.error "Only the server owner can delete this server.", db, []⟩
      else
        match getActiveServerDeletionOperation db serverId with
        | some activeDeletion => ⟨Except.ok (toServerDeletionResponse activeDeletion), db, []⟩
        | none =>
          let newOp : Operation :=
            { id := db.nextId, target := OpTarget.server, requestedBy := userId,
              serverId := some serverId, channelId := none, status := OpStatus.in_progress,
              deletedMessages := 0, deletedChannels := 0, deletedMemberships := 0,
              deletedServers := 0, createdAt := now, updatedAt := now, completedAt := none }
          ⟨Except.ok { ok := true, operationId := db.nextId, serverId := some serverId,
                       status := OpStatus.in_progress, deletedMessages := 0,
                       deletedChannels := 0, deletedMemberships := 0, deletedServers := 0,
                       completedAt := none },
           { db with operations := db.operations ++ [newOp], nextId := db.nextId + 1 },
           [⟨SchedFn.serverBatch, 0, db.nextId⟩]⟩

end Servers

inductive Role where
  | owner
  | member
  deriving Repr, DecidableEq

namespace ChannelsDel

/-- Embeds `requireServerMembership` in the channel-deletion module (lines 57-83): the
membership lookup uses `.unique()`. -/
def requireServerMembership (db : DB) (serverId userId : Nat) : Except String Role :=
  match db.getServer serverId with
  | none => Except.error "Server not found."
  | some server =>
    if server.ownerId = userId then Except.ok Role.owner
    else
      match uniqueQ (db.memberships.filter (fun m =>
        m.serverId == serverId && m.userId == userId)) with
      | Except.error e => Except.error e
      | Except.ok none => Except.error "You are not a member of this server."
      | Except.ok (some _) => Except.ok Role.member

/-- Embeds `deleteChannel` in the channel-deletion module (lines 136-201). -/
def deleteChannel (hash : String → String) (now : Nat) (sessionToken : String)
    (channelId : Nat) (db : DB) : MutOut ChannelDeletionResponse :=
  match Servers.getAuthenticatedUser hash db now sessionToken with
  | Except.error e => ⟨Except.error e, db, []⟩
  | Except.ok userId =>
    match db.getChannel channelId with
    | none => ⟨Except.error "Channel not found.", db, []⟩
    | some channel =>
      match requireServerMembership db channel.serverId userId with
      | Except.error e => ⟨Except.error e, db, []⟩
      | Except.ok membershipRole =>
        if ¬ (membershipRole = Role.owner ∨ channel.createdBy = userId) then
          ⟨Except.error "Only the channel creator or server owner can delete this channel.",
           db, []⟩
        else
          match getActiveChannelDeletionOperation db channel.id with
          | some activeDeletion =>
            ⟨Except.ok (toChannelDeletionResponse activeDeletion), db, []⟩
          | none =>
            let newOp : Operation :=
              { id := db.nextId, target := OpTarget.channel, requestedBy := userId,
                serverId := some channel.serverId, channelId := some channel.id,
                status := OpStatus.in_progress, deletedMessages := 0, deletedChannels := 0,
                deletedMemberships := 0, deletedServers := 0, createdAt := now,
                updatedAt := now, completedAt := none }
            ⟨Except.ok { ok := true, operationId := db.nextId, channelId := some channel.id,
                         serverId := some channel.serverId, status := OpStatus.in_progress,
                         deletedMessages := 0, deletedChannels := 0, completedAt := none },
             { db with operations := db.operations ++ [newOp], nextId := db.nextId + 1 },
             [⟨SchedFn.channelBatch, 0, db.nextId⟩]⟩

end ChannelsDel

namespace Channels

/-- Embeds `getAuthenticatedUser` in channels.ts (lines 46-72): collects every session
row for the token hash and resolves duplicates with `selectMostRecentSession`. -/
def getAuthenticatedUser (hash : String → String) (db : DB) (now : Nat)
    (sessionToken : String) : Except String Nat :=
  if !(isValidSessionToken sessionToken) then
    Except.error "You must be logged in to continue."
  else
    match selectMostRecentSession (sessionsByTokenHash db (hash sessionToken)) with
    | none => Except.error "You must be logged in to continue."
    | some session =>
      if session.expiresAt < now then Except.error "You must be logged in to continue."
      else
        match db.getUser session.userId with
        | none => Except.error "You must be logged in to continue."
        | some user => Except.ok user.id

end Channels

namespace Auth

/-- Embeds `logout` (auth.ts lines 514-537): deletes only the canonical session row. -/
def logout (hash : String → String) (sessionToken : String) (db : DB) : Bool × DB :=
  if !(isValidSessionToken sessionToken) then (true, db)
  else
    match selectMostRecentSession (sessionsByTokenHash db (hash sessionToken)) with
    | none => (true, db)
    | some session => (true, db.deleteSessionById session.id)

/-- Embeds `getSessionUser` (auth.ts lines 539-571). -/
def getSessionUser (hash : String → String) (now : Nat) (sessionToken : String)
    (db : DB) : Option (Nat × String) :=
  if !(isValidSessionToken sessionToken) then none
  else
    match selectMostRecentSession (sessionsByTokenHash db (hash sessionToken)) with
    | none => none
    | some session =>
      if session.expiresAt < now then none
      else
        match db.getUser session.userId with
        | none => none
        | some user => some (user.id, user.loginName)

end Auth

/-! ## List lemmas about deletion-by-id and patch-by-id -/

theorem sublist_filter_mem {α : Type} [DecidableEq α] {s l : List α}
    (hs : s.Sublist l) (hl : l.Nodup) :
    l.filter (fun x => decide (x ∈ s)) = s := by
  induction hs with
  | slnil => rfl
  | @cons s l₂ a h ih =>
    have hnd := List.nodup_cons.mp hl
    have ha : a ∉ s := fun hmem => hnd.1 (h.subset hmem)
    simp only [List.filter_cons, decide_eq_true_eq]
    rw [if_neg ha]
    exact ih hnd.2
  | @cons₂ s l₂ a h ih =>
    have hnd := List.nodup_cons.mp hl
    simp only [List.filter_cons, decide_eq_true_eq]
    rw [if_pos (List.mem_cons_self a s)]
    have hcg : ∀ x ∈ l₂, (decide (x ∈ a :: s)) = (decide (x ∈ s)) := by
      intro x hx
      have hxa : x ≠ a := fun he => hnd.1 (he ▸ hx)
      simp [List.mem_cons, hxa]
    rw [List.filter_congr hcg, ih hnd.2]

/-- Deleting, by key, the members of a sublist `s` of a `key`-nodup list `l`
removes exactly `s.length` elements. -/
theorem length_filter_not_contains_key {α β : Type} [DecidableEq α] [DecidableEq β]
    (key : α → β) {s l : List α} (hs : s.Sublist l) (hnd : (l.map key).Nodup) :
    (l.filter (fun x => !((s.map key).contains (key x)))).length + s.length = l.length := by
  have hlnd : l.Nodup := List.Nodup.of_map key hnd
  have hkey : ∀ x ∈ l, ((s.map key).contains (key x)) = decide (x ∈ s) := by
    intro x hx
    by_cases hxs : x ∈ s
    · simp [hxs]
      exact ⟨x, hxs, rfl⟩
    · simp [hxs]
      intro y hy hkeq
      exact hxs ((List.inj_on_of_nodup_map hnd (hs.subset hy) hx hkeq) ▸ hy)
  have hneg : ∀ x ∈ l, (!((s.map key).contains (key x))) = (!(decide (x ∈ s))) := by
    intro x hx
    rw [hkey x hx]
  rw [List.filter_congr hneg]
  have hpos : l.filter (fun x => decide (x ∈ s)) = s := sublist_filter_mem hs hlnd
  have := List.length_eq_length_filter_add (l := l) (fun x => decide (x ∈ s))
  rw [hpos] at this
  omega

/-- Embeds `find?` by id over a map that patches rows with a given id (and preserves
ids) finds the patched image of the original row. -/
theorem find?_patch_by_id {f : Operation → Operation} (hf : ∀ o, (f o).id = o.id)
    (oid : Nat) (l : List Operation) :
    (l.map (fun o => if o.id = oid then f o else o)).find? (fun o => o.id == oid)
      = (l.find? (fun o => o.id == oid)).map f := by
  induction l with
  | nil => rfl
  | cons a t ih =>
    by_cases ha : a.id = oid
    · have h1 : ((fun o => if o.id = oid then f o else o) a) = f a := by simp [ha]
      have h2 : ((f a).id == oid) = true := by rw [hf a, ha]; exact beq_self_eq_true oid
      simp only [List.map_cons, h1, List.find?_cons, h2]
      have h3 : (a.id == oid) = true := by rw [ha]; exact beq_self_eq_true oid
      simp [h3]
    · have h1 : ((fun o => if o.id = oid then f o else o) a) = a := by simp [ha]
      have h2 : (a.id == oid) = false := by
        exact beq_eq_false_iff_ne.mpr ha
      simp only [List.map_cons, h1, List.find?_cons, h2]
      simpa [h2] using ih

/-! ## Lemmas about the message-deletion loop of `deleteServerMessageBatch` -/

theorem serverMessageGo_nil (db : DB) (rem acc : Nat) :
    serverMessageGo [] db rem acc = (db, acc) := rfl

theorem serverMessageGo_cons_zero (c : Channel) (rest : List Channel) (db : DB) (acc : Nat) :
    serverMessageGo (c :: rest) db 0 acc = (db, acc) := by
  simp [serverMessageGo]

theorem serverMessageGo_cons_skip (c : Channel) (rest : List Channel) (db : DB)
    (rem acc : Nat) (hrem : rem ≠ 0)
    (hempty : ((messagesByChannel db c.id).take rem).length = 0) :
    serverMessageGo (c :: rest) db rem acc = serverMessageGo rest db rem acc := by
  simp [serverMessageGo, hrem, hempty]

theorem serverMessageGo_cons_del (c : Channel) (rest : List Channel) (db : DB)
    (rem acc : Nat) (hrem : rem ≠ 0)
    (hne : ((messagesByChannel db c.id).take rem).length ≠ 0) :
    serverMessageGo (c :: rest) db rem acc =
      serverMessageGo rest
        (db.deleteMessagesByIds (((messagesByChannel db c.id).take rem).map Message.id))
        (rem - ((messagesByChannel db c.id).take rem).length)
        (acc + ((messagesByChannel db c.id).take rem).length) := by
  simp [serverMessageGo, hrem, hne]
  intro h
  rw [h] at hne
  simp at hne

theorem serverMessageGo_frame (cs : List Channel) (db : DB) (rem acc : Nat) :
    (serverMessageGo cs db rem acc).1 =
      { db with messages := (serverMessageGo cs db rem acc).1.messages } := by
  induction cs generalizing db rem acc with
  | nil => rfl
  | cons c rest ih =>
    by_cases hrem : rem = 0
    · subst hrem
      rw [serverMessageGo_cons_zero]
    · by_cases hempty : ((messagesByChannel db c.id).take rem).length = 0
      · rw [serverMessageGo_cons_skip c rest db rem acc hrem hempty]
        exact ih db rem acc
      · rw [serverMessageGo_cons_del c rest db rem acc hrem hempty]
        exact ih _ _ _

theorem serverMessageGo_count (cs : List Channel) (db : DB) (rem acc : Nat)
    (hnd : (db.messages.map Message.id).Nodup) :
    ∃ d, (serverMessageGo cs db rem acc).2 = acc + d ∧ d ≤ rem ∧
      (serverMessageGo cs db rem acc).1.messages.length + d = db.messages.length := by
  induction cs generalizing db rem acc with
  | nil => exact ⟨0, by simp [serverMessageGo_nil], by omega, by simp [serverMessageGo_nil]⟩
  | cons c rest ih =>
    by_cases hrem : rem = 0
    · subst hrem
      exact ⟨0, by simp [serverMessageGo_cons_zero], by omega,
        by simp [serverMessageGo_cons_zero]⟩
    · by_cases hempty : ((messagesByChannel db c.id).take rem).length = 0
      · rw [serverMessageGo_cons_skip c rest db rem acc hrem hempty]
        exact ih db rem acc hnd
      · rw [serverMessageGo_cons_del c rest db rem acc hrem hempty]
        have hsub : ((messagesByChannel db c.id).take rem).Sublist db.messages :=
          (List.take_sublist _ _).trans (List.filter_sublist _)
        have hlen :
            (db.deleteMessagesByIds
              (((messagesByChannel db c.id).take rem).map Message.id)).messages.length +
              ((messagesByChannel db c.id).take rem).length = db.messages.length :=
          length_filter_not_contains_key Message.id hsub hnd
        have hnd' :
            ((db.deleteMessagesByIds
              (((messagesByChannel db c.id).take rem).map Message.id)).messages.map
                Message.id).Nodup :=
          hnd.sublist ((List.filter_sublist _).map _)
        have hmlen : ((messagesByChannel db c.id).take rem).length ≤ rem := by
          rw [List.length_take]
          exact min_le_left _ _
        obtain ⟨d, h1, h2, h3⟩ := ih
          (db.deleteMessagesByIds (((messagesByChannel db c.id).take rem).map Message.id))
          (rem - ((messagesByChannel db c.id).take rem).length)
          (acc + ((messagesByChannel db c.id).take rem).length) hnd'
        refine ⟨((messagesByChannel db c.id).take rem).length + d, ?_, by omega, ?_⟩
        · rw [h1]
          omega
        · omega

theorem serverMessageGo_le_acc (cs : List Channel) (db : DB) (rem acc : Nat) :
    acc ≤ (serverMessageGo cs db rem acc).2 := by
  induction cs generalizing db rem acc with
  | nil => simp [serverMessageGo_nil]
  | cons c rest ih =>
    by_cases hrem : rem = 0
    · subst hrem
      simp [serverMessageGo_cons_zero]
    · by_cases hempty : ((messagesByChannel db c.id).take rem).length = 0
      · rw [serverMessageGo_cons_skip c rest db rem acc hrem hempty]
        exact ih db rem acc
      · rw [serverMessageGo_cons_del c rest db rem acc hrem hempty]
        have := ih (db.deleteMessagesByIds
            (((messagesByChannel db c.id).take rem).map Message.id))
          (rem - ((messagesByChannel db c.id).take rem).length)
          (acc + ((messagesByChannel db c.id).take rem).length)
        omega

theorem serverMessageGo_pos (cs : List Channel) (db : DB) (rem acc : Nat)
    (hrem : rem ≠ 0) (hex : ∃ c ∈ cs, messagesByChannel db c.id ≠ []) :
    acc < (serverMessageGo cs db rem acc).2 := by
  induction cs generalizing db rem acc with
  | nil => simp at hex
  | cons c rest ih =>
    by_cases hempty : ((messagesByChannel db c.id).take rem).length = 0
    · have hcnil : messagesByChannel db c.id = [] := by
        rw [List.length_take] at hempty
        rcases Nat.min_eq_zero_iff.mp hempty with h | h
        · exact absurd h hrem
        · exact List.length_eq_zero.mp h
      rw [serverMessageGo_cons_skip c rest db rem acc hrem hempty]
      rcases hex with ⟨c', hc', hne⟩
      rcases List.mem_cons.mp hc' with rfl | hmem
      · exact absurd hcnil hne
      · exact ih db rem acc hrem ⟨c', hmem, hne⟩
    · rw [serverMessageGo_cons_del c rest db rem acc hrem hempty]
      have hle := serverMessageGo_le_acc rest
        (db.deleteMessagesByIds
          (((messagesByChannel db c.id).take rem).map Message.id))
        (rem - ((messagesByChannel db c.id).take rem).length)
        (acc + ((messagesByChannel db c.id).take rem).length)
      omega

theorem deleteServerMessageBatch_frame (db : DB) (sid : Nat) :
    (deleteServerMessageBatch db sid).1 =
      { db with messages := (deleteServerMessageBatch db sid).1.messages } :=
  serverMessageGo_frame _ _ _ _

theorem deleteServerMessageBatch_operations (db : DB) (sid : Nat) :
    (deleteServerMessageBatch db sid).1.operations = db.operations := by
  rw [deleteServerMessageBatch_frame db sid]

theorem deleteServerMessageBatch_count (db : DB) (sid : Nat)
    (hnd : (db.messages.map Message.id).Nodup) :
    ∃ d, (deleteServerMessageBatch db sid).2 = d ∧ d ≤ SERVER_DELETE_MESSAGE_BATCH_SIZE ∧
      (deleteServerMessageBatch db sid).1.messages.length + d = db.messages.length := by
  obtain ⟨d, h1, h2, h3⟩ := serverMessageGo_count
    ((channelsByServer db sid).take SERVER_DELETE_CHANNEL_SCAN_BATCH_SIZE) db
    SERVER_DELETE_MESSAGE_BATCH_SIZE 0 hnd
  exact ⟨d, by simpa using h1, h2, h3⟩

theorem deleteServerMessageBatch_pos (db : DB) (sid : Nat)
    (hex : ∃ c ∈ (channelsByServer db sid).take SERVER_DELETE_CHANNEL_SCAN_BATCH_SIZE,
      messagesByChannel db c.id ≠ []) :
    0 < (deleteServerMessageBatch db sid).2 :=
  serverMessageGo_pos _ _ _ _ (by simp [SERVER_DELETE_MESSAGE_BATCH_SIZE]) hex

theorem patchOp_getOperation (db : DB) (oid : Nat) (f : Operation → Operation)
    (hf : ∀ o, (f o).id = o.id) :
    (db.patchOp oid f).getOperation oid = (db.getOperation oid).map f :=
  find?_patch_by_id hf oid db.operations

/-- Pointwise comparison of the four progress counters of an operation. -/
def countersLe (o o' : Operation) : Prop :=
  o.deletedMessages ≤ o'.deletedMessages ∧ o.deletedChannels ≤ o'.deletedChannels ∧
  o.deletedMemberships ≤ o'.deletedMemberships ∧ o.deletedServers ≤ o'.deletedServers

theorem countersLe_refl (o : Operation) : countersLe o o :=
  ⟨le_rfl, le_rfl, le_rfl, le_rfl⟩

/-! ## Step equations for the batch executors, one per branch -/

theorem runServer_none (opId now : Nat) (db : DB)
    (hgo : db.getOperation opId = none) :
    runServerDeletionBatch opId now db = (db, []) := by
  simp only [runServerDeletionBatch, hgo]

theorem runServer_guard (opId now : Nat) (db : DB) (op : Operation)
    (hgo : db.getOperation opId = some op)
    (hc : op.status = OpStatus.completed ∨ op.target ≠ OpTarget.server) :
    runServerDeletionBatch opId now db = (db, []) := by
  simp only [runServerDeletionBatch, hgo]
  rw [if_pos hc]

theorem runServer_noServerId (opId now : Nat) (db : DB) (op : Operation)
    (hgo : db.getOperation opId = some op)
    (hst : op.status = OpStatus.in_progress) (htg : op.target = OpTarget.server)
    (hsid : op.serverId = none) :
    runServerDeletionBatch opId now db =
      (db.patchOp op.id (fun o => { o with status := OpStatus.completed, completedAt := some now, updatedAt := now }), []) := by
  simp only [runServerDeletionBatch, hgo]
  rw [if_neg (by simp [hst, htg])]
  simp only [hsid]

theorem runServer_serverGone (opId now : Nat) (db : DB) (op : Operation) (sid : Nat)
    (hgo : db.getOperation opId = some op)
    (hst : op.status = OpStatus.in_progress) (htg : op.target = OpTarget.server)
    (hsid : op.serverId = some sid) (hsrv : db.getServer sid = none) :
    runServerDeletionBatch opId now db =
      (db.patchOp op.id (fun o => { o with status := OpStatus.completed, completedAt := some now, updatedAt := now }), []) := by
  simp only [runServerDeletionBatch, hgo]
  rw [if_neg (by simp [hst, htg])]
  simp only [hsid, hsrv]

theorem runServer_messages (opId now : Nat) (db : DB) (op : Operation) (sid : Nat)
    (srv : Server) (hgo : db.getOperation opId = some op)
    (hst : op.status = OpStatus.in_progress) (htg : op.target = OpTarget.server)
    (hsid : op.serverId = some sid) (hsrv : db.getServer sid = some srv)
    (hpos : 0 < (deleteServerMessageBatch db sid).2) :
    runServerDeletionBatch opId now db =
      ((deleteServerMessageBatch db sid).1.patchOp op.id
        (fun o => { o with deletedMessages := op.deletedMessages + (deleteServerMessageBatch db sid).2, updatedAt := now }),
       [⟨SchedFn.serverBatch, 0, op.id⟩]) := by
  simp only [runServerDeletionBatch, hgo]
  rw [if_neg (by simp [hst, htg])]
  simp only [hsid, hsrv]
  rw [if_pos hpos]

theorem runServer_channels (opId now : Nat) (db : DB) (op : Operation) (sid : Nat)
    (srv : Server) (hgo : db.getOperation opId = some op)
    (hst : op.status = OpStatus.in_progress) (htg : op.target = OpTarget.server)
    (hsid : op.serverId = some sid) (hsrv : db.getServer sid = some srv)
    (hzero : ¬ 0 < (deleteServerMessageBatch db sid).2)
    (hch : 0 < ((channelsByServer (deleteServerMessageBatch db sid).1 sid).take SERVER_DELETE_CHANNEL_BATCH_SIZE).length) :
    runServerDeletionBatch opId now db =
      (((deleteServerMessageBatch db sid).1.deleteChannelsByIds
          (((channelsByServer (deleteServerMessageBatch db sid).1 sid).take SERVER_DELETE_CHANNEL_BATCH_SIZE).map Channel.id)).patchOp
        op.id
        (fun o => { o with deletedChannels := op.deletedChannels + ((channelsByServer (deleteServerMessageBatch db sid).1 sid).take SERVER_DELETE_CHANNEL_BATCH_SIZE).length, updatedAt := now }),
       [⟨SchedFn.serverBatch, 0, op.id⟩]) := by
  simp only [runServerDeletionBatch, hgo]
  rw [if_neg (by simp [hst, htg])]
  simp only [hsid, hsrv]
  rw [if_neg hzero, if_pos hch]

theorem runServer_memberships (opId now : Nat) (db : DB) (op : Operation) (sid : Nat)
    (srv : Server) (hgo : db.getOperation opId = some op)
    (hst : op.status = OpStatus.in_progress) (htg : op.target = OpTarget.server)
    (hsid : op.serverId = some sid) (hsrv : db.getServer sid = some srv)
    (hzero : ¬ 0 < (deleteServerMessageBatch db sid).2)
    (hch : ¬ 0 < ((channelsByServer (deleteServerMessageBatch db sid).1 sid).take SERVER_DELETE_CHANNEL_BATCH_SIZE).length)
    (hmb : 0 < ((membershipsByServer (deleteServerMessageBatch db sid).1 sid).take SERVER_DELETE_MEMBERSHIP_BATCH_SIZE).length) :
    runServerDeletionBatch opId now db =
      (((deleteServerMessageBatch db sid).1.deleteMembershipsByIds
          (((membershipsByServer (deleteServerMessageBatch db sid).1 sid).take SERVER_DELETE_MEMBERSHIP_BATCH_SIZE).map ServerMembership.id)).patchOp
        op.id
        (fun o => { o with deletedMemberships := op.deletedMemberships + ((membershipsByServer (deleteServerMessageBatch db sid).1 sid).take SERVER_DELETE_MEMBERSHIP_BATCH_SIZE).length, updatedAt := now }),
       [⟨SchedFn.serverBatch, 0, op.id⟩]) := by
  simp only [runServerDeletionBatch, hgo]
  rw [if_neg (by simp [hst, htg])]
  simp only [hsid, hsrv]
  rw [if_neg hzero, if_neg hch, if_pos hmb]

theorem runServer_final (opId now : Nat) (db : DB) (op : Operation) (sid : Nat)
    (srv : Server) (hgo : db.getOperation opId = some op)
    (hst : op.status = OpStatus.in_progress) (htg : op.target = OpTarget.server)
    (hsid : op.serverId = some sid) (hsrv : db.getServer sid = some srv)
    (hzero : ¬ 0 < (deleteServerMessageBatch db sid).2)
    (hch : ¬ 0 < ((channelsByServer (deleteServerMessageBatch db sid).1 sid).take SERVER_DELETE_CHANNEL_BATCH_SIZE).length)
    (hmb : ¬ 0 < ((membershipsByServer (deleteServerMessageBatch db sid).1 sid).take SERVER_DELETE_MEMBERSHIP_BATCH_SIZE).length) :
    runServerDeletionBatch opId now db =
      (((deleteServerMessageBatch db sid).1.deleteServerById sid).patchOp op.id
        (fun o => { o with status := OpStatus.completed, deletedServers := op.deletedServers + 1, completedAt := some now, updatedAt := now }),
       []) := by
  simp only [runServerDeletionBatch, hgo]
  rw [if_neg (by simp [hst, htg])]
  simp only [hsid, hsrv]
  rw [if_neg hzero, if_neg hch, if_neg hmb]

theorem runChannel_none (opId now : Nat) (db : DB)
    (hgo : db.getOperation opId = none) :
    runChannelDeletionBatch opId now db = (db, []) := by
  simp only [runChannelDeletionBatch, hgo]

theorem runChannel_guard (opId now : Nat) (db : DB) (op : Operation)
    (hgo : db.getOperation opId = some op)
    (hc : op.status = OpStatus.completed ∨ op.target ≠ OpTarget.channel) :
    runChannelDeletionBatch opId now db = (db, []) := by
  simp only [runChannelDeletionBatch, hgo]
  rw [if_pos hc]

theorem runChannel_noChannelId (opId now : Nat) (db : DB) (op : Operation)
    (hgo : db.getOperation opId = some op)
    (hst : op.status = OpStatus.in_progress) (htg : op.target = OpTarget.channel)
    (hcid : op.channelId = none) :
    runChannelDeletionBatch opId now db =
      (db.patchOp op.id (fun o => { o with status := OpStatus.completed, completedAt := some now, updatedAt := now }), []) := by
  simp only [runChannelDeletionBatch, hgo]
  rw [if_neg (by simp [hst, htg])]
  simp only [hcid]

theorem runChannel_channelGone (opId now : Nat) (db : DB) (op : Operation) (cid : Nat)
    (hgo : db.getOperation opId = some op)
    (hst : op.status = OpStatus.in_progress) (htg : op.target = OpTarget.channel)
    (hcid : op.channelId = some cid) (hch : db.getChannel cid = none) :
    runChannelDeletionBatch opId now db =
      (db.patchOp op.id (fun o => { o with status := OpStatus.completed, completedAt := some now, updatedAt := now }), []) := by
  simp only [runChannelDeletionBatch, hgo]
  rw [if_neg (by simp [hst, htg])]
  simp only [hcid, hch]

theorem runChannel_messages (opId now : Nat) (db : DB) (op : Operation) (cid : Nat)
    (ch : Channel) (hgo : db.getOperation opId = some op)
    (hst : op.status = OpStatus.in_progress) (htg : op.target = OpTarget.channel)
    (hcid : op.channelId = some cid) (hch : db.getChannel cid = some ch)
    (hpos : 0 < ((messagesByChannel db cid).take CHANNEL_DELETE_MESSAGE_BATCH_SIZE).length) :
    runChannelDeletionBatch opId now db =
      ((db.deleteMessagesByIds (((messagesByChannel db cid).take CHANNEL_DELETE_MESSAGE_BATCH_SIZE).map Message.id)).patchOp op.id
        (fun o => { o with deletedMessages := op.deletedMessages + ((messagesByChannel db cid).take CHANNEL_DELETE_MESSAGE_BATCH_SIZE).length, updatedAt := now }),
       [⟨SchedFn.channelBatch, 0, op.id⟩]) := by
  simp only [runChannelDeletionBatch, hgo]
  rw [if_neg (by simp [hst, htg])]
  simp only [hcid, hch]
  rw [if_pos hpos]

theorem runChannel_final (opId now : Nat) (db : DB) (op : Operation) (cid : Nat)
    (ch : Channel) (hgo : db.getOperation opId = some op)
    (hst : op.status = OpStatus.in_progress) (htg : op.target = OpTarget.channel)
    (hcid : op.channelId = some cid) (hch : db.getChannel cid = some ch)
    (hzero : ¬ 0 < ((messagesByChannel db cid).take CHANNEL_DELETE_MESSAGE_BATCH_SIZE).length) :
    runChannelDeletionBatch opId now db =
      ((db.deleteChannelById cid).patchOp op.id
        (fun o => { o with status := OpStatus.completed, deletedChannels := op.deletedChannels + 1, completedAt := some now, updatedAt := now }),
       []) := by
  simp only [runChannelDeletionBatch, hgo]
  rw [if_neg (by simp [hst, htg])]
  simp only [hcid, hch]
  rw [if_neg hzero]

/-- Branch analysis of one server-batch invocation: either it leaves the
operations table untouched, or it patches exactly the rows carrying the id of
the in-progress operation it found, with an id-preserving patch that never
decreases a progress counter. -/
theorem runServerDeletionBatch_shape (opId now : Nat) (db : DB) :
    (runServerDeletionBatch opId now db).1.operations = db.operations ∨
    ∃ (op : Operation) (f : Operation → Operation),
      db.getOperation opId = some op ∧ op.id = opId ∧
      op.status = OpStatus.in_progress ∧ (∀ o : Operation, (f o).id = o.id) ∧
      countersLe op (f op) ∧
      (runServerDeletionBatch opId now db).1.operations =
        db.operations.map (fun o => if o.id = op.id then f o else o) := by
  cases hgo : db.getOperation opId with
  | none =>
    left
    rw [runServer_none opId now db hgo]
  | some op =>
    have hid : op.id = opId := by simpa using List.find?_some hgo
    by_cases hc : op.status = OpStatus.completed ∨ op.target ≠ OpTarget.server
    · left
      rw [runServer_guard opId now db op hgo hc]
    · push_neg at hc
      obtain ⟨hncomp, htg⟩ := hc
      have hst : op.status = OpStatus.in_progress := by
        cases h : op.status with
        | in_progress => rfl
        | completed => exact absurd h hncomp
      cases hsid : op.serverId with
      | none =>
        right
        refine ⟨op, fun o => { o with status := OpStatus.completed, completedAt := some now, updatedAt := now }, rfl, hid, hst, fun o => rfl, ⟨le_rfl, le_rfl, le_rfl, le_rfl⟩, ?_⟩
        rw [runServer_noServerId opId now db op hgo hst htg hsid]
        rfl
      | some sid =>
        cases hsrv : db.getServer sid with
        | none =>
          right
          refine ⟨op, fun o => { o with status := OpStatus.completed, completedAt := some now, updatedAt := now }, rfl, hid, hst, fun o => rfl, ⟨le_rfl, le_rfl, le_rfl, le_rfl⟩, ?_⟩
          rw [runServer_serverGone opId now db op sid hgo hst htg hsid hsrv]
          rfl
        | some srv =>
          have hops := deleteServerMessageBatch_operations db sid
          by_cases hpos : 0 < (deleteServerMessageBatch db sid).2
          · right
            refine ⟨op, fun o => { o with deletedMessages := op.deletedMessages + (deleteServerMessageBatch db sid).2, updatedAt := now }, rfl, hid, hst, fun o => rfl, ⟨Nat.le_add_right _ _, le_rfl, le_rfl, le_rfl⟩, ?_⟩
            rw [runServer_messages opId now db op sid srv hgo hst htg hsid hsrv hpos]
            show (deleteServerMessageBatch db sid).1.operations.map _ = db.operations.map _
            rw [hops]
          · by_cases hch : 0 < ((channelsByServer (deleteServerMessageBatch db sid).1 sid).take SERVER_DELETE_CHANNEL_BATCH_SIZE).length
            · right
              refine ⟨op, fun o => { o with deletedChannels := op.deletedChannels + ((channelsByServer (deleteServerMessageBatch db sid).1 sid).take SERVER_DELETE_CHANNEL_BATCH_SIZE).length, updatedAt := now }, rfl, hid, hst, fun o => rfl, ⟨le_rfl, Nat.le_add_right _ _, le_rfl, le_rfl⟩, ?_⟩
              rw [runServer_channels opId now db op sid srv hgo hst htg hsid hsrv hpos hch]
              show (deleteServerMessageBatch db sid).1.operations.map _ = db.operations.map _
              rw [hops]
            · by_cases hmb : 0 < ((membershipsByServer (deleteServerMessageBatch db sid).1 sid).take SERVER_DELETE_MEMBERSHIP_BATCH_SIZE).length
              · right
                refine ⟨op, fun o => { o with deletedMemberships := op.deletedMemberships + ((membershipsByServer (deleteServerMessageBatch db sid).1 sid).take SERVER_DELETE_MEMBERSHIP_BATCH_SIZE).length, updatedAt := now }, rfl, hid, hst, fun o => rfl, ⟨le_rfl, le_rfl, Nat.le_add_right _ _, le_rfl⟩, ?_⟩
                rw [runServer_memberships opId now db op sid srv hgo hst htg hsid hsrv hpos hch hmb]
                show (deleteServerMessageBatch db sid).1.operations.map _ = db.operations.map _
                rw [hops]
              · right
                refine ⟨op, fun o => { o with status := OpStatus.completed, deletedServers := op.deletedServers + 1, completedAt := some now, updatedAt := now }, rfl, hid, hst, fun o => rfl, ⟨le_rfl, le_rfl, le_rfl, Nat.le_add_right _ _⟩, ?_⟩
                rw [runServer_final opId now db op sid srv hgo hst htg hsid hsrv hpos hch hmb]
                show (deleteServerMessageBatch db sid).1.operations.map _ = db.operations.map _
                rw [hops]

/-- Branch analysis of one channel-batch invocation, as for the server batch. -/
theorem runChannelDeletionBatch_shape (opId now : Nat) (db : DB) :
    (runChannelDeletionBatch opId now db).1.operations = db.operations ∨
    ∃ (op : Operation) (f : Operation → Operation),
      db.getOperation opId = some op ∧ op.id = opId ∧
      op.status = OpStatus.in_progress ∧ (∀ o : Operation, (f o).id = o.id) ∧
      countersLe op (f op) ∧
      (runChannelDeletionBatch opId now db).1.operations =
        db.operations.map (fun o => if o.id = op.id then f o else o) := by
  cases hgo : db.getOperation opId with
  | none =>
    left
    rw [runChannel_none opId now db hgo]
  | some op =>
    have hid : op.id = opId := by simpa using List.find?_some hgo
    by_cases hc : op.status = OpStatus.completed ∨ op.target ≠ OpTarget.channel
    · left
      rw [runChannel_guard opId now db op hgo hc]
    · push_neg at hc
      obtain ⟨hncomp, htg⟩ := hc
      have hst : op.status = OpStatus.in_progress := by
        cases h : op.status with
        | in_progress => rfl
        | completed => exact absurd h hncomp
      cases hcid : op.channelId with
      | none =>
        right
        refine ⟨op, fun o => { o with status := OpStatus.completed, completedAt := some now, updatedAt := now }, rfl, hid, hst, fun o => rfl, ⟨le_rfl, le_rfl, le_rfl, le_rfl⟩, ?_⟩
        rw [runChannel_noChannelId opId now db op hgo hst htg hcid]
        rfl
      | some cid =>
        cases hchg : db.getChannel cid with
        | none =>
          right
          refine ⟨op, fun o => { o with status := OpStatus.completed, completedAt := some now, updatedAt := now }, rfl, hid, hst, fun o => rfl, ⟨le_rfl, le_rfl, le_rfl, le_rfl⟩, ?_⟩
          rw [runChannel_channelGone opId now db op cid hgo hst htg hcid hchg]
          rfl
        | some channel =>
          by_cases hpos : 0 < ((messagesByChannel db cid).take CHANNEL_DELETE_MESSAGE_BATCH_SIZE).length
          · right
            refine ⟨op, fun o => { o with deletedMessages := op.deletedMessages + ((messagesByChannel db cid).take CHANNEL_DELETE_MESSAGE_BATCH_SIZE).length, updatedAt := now }, rfl, hid, hst, fun o => rfl, ⟨Nat.le_add_right _ _, le_rfl, le_rfl, le_rfl⟩, ?_⟩
            rw [runChannel_messages opId now db op cid channel hgo hst htg hcid hchg hpos]
            rfl
          · right
            refine ⟨op, fun o => { o with status := OpStatus.completed, deletedChannels := op.deletedChannels + 1, completedAt := some now, updatedAt := now }, rfl, hid, hst, fun o => rfl, ⟨le_rfl, Nat.le_add_right _ _, le_rfl, le_rfl⟩, ?_⟩
            rw [runChannel_final opId now db op cid channel hgo hst htg hcid hchg hpos]
            rfl

theorem mono_from_patch {l : List Operation} {op : Operation} {f : Operation → Operation}
    (hop : op ∈ l) (hnd : (l.map Operation.id).Nodup)
    (hfid : ∀ o, (f o).id = o.id) (hcle : countersLe op (f op))
    (o : Operation) (ho : o ∈ l) :
    ∃ o' ∈ l.map (fun x => if x.id = op.id then f x else x), o'.id = o.id ∧ countersLe o o' := by
  by_cases he : o.id = op.id
  · have heq : o = op := List.inj_on_of_nodup_map hnd ho hop he
    subst heq
    refine ⟨f o, ?_, hfid o, hcle⟩
    have hm := List.mem_map_of_mem (fun x => if x.id = o.id then f x else x) ho
    simpa using hm
  · refine ⟨o, ?_, rfl, countersLe_refl o⟩
    have hm := List.mem_map_of_mem (fun x => if x.id = op.id then f x else x) ho
    simpa [he] using hm

/-- C7: once a deletion operation is `completed` it never returns to
`in_progress`.  Invoking either batch step on a completed operation leaves the
entire store unchanged and schedules nothing (the embedded steps are total
functions, so no error is raised), and a completed operation row survives any
batch-step invocation unchanged. -/
theorem claim_C7_completed_absorbing :
    (∀ (db : DB) (opId now : Nat) (op : Operation),
      db.getOperation opId = some op → op.status = OpStatus.completed →
        runServerDeletionBatch opId now db = (db, []) ∧
        runChannelDeletionBatch opId now db = (db, [])) ∧
    (∀ (db : DB) (qid now : Nat) (o : Operation),
      (db.operations.map Operation.id).Nodup → o ∈ db.operations →
      o.status = OpStatus.completed →
        o ∈ (runServerDeletionBatch qid now db).1.operations ∧
        o ∈ (runChannelDeletionBatch qid now db).1.operations) := by
  constructor
  · intro db opId now op hgo hst
    exact ⟨runServer_guard opId now db op hgo (Or.inl hst),
      runChannel_guard opId now db op hgo (Or.inl hst)⟩
  · intro db qid now o hnd ho hst
    constructor
    · rcases runServerDeletionBatch_shape qid now db with hsame |
        ⟨op, f, hgo, hid, hstp, hfid, hcle, hmap⟩
      · rw [hsame]
        exact ho
      · rw [hmap]
        have hne : o.id ≠ op.id := by
          intro he
          have hopmem : op ∈ db.operations := List.mem_of_find?_eq_some hgo
          have heq : o = op := List.inj_on_of_nodup_map hnd ho hopmem he
          rw [heq, hstp] at hst
          exact OpStatus.noConfusion hst
        have hm := List.mem_map_of_mem (fun x => if x.id = op.id then f x else x) ho
        simpa [hne] using hm
    · rcases runChannelDeletionBatch_shape qid now db with hsame |
        ⟨op, f, hgo, hid, hstp, hfid, hcle, hmap⟩
      · rw [hsame]
        exact ho
      · rw [hmap]
        have hne : o.id ≠ op.id := by
          intro he
          have hopmem : op ∈ db.operations := List.mem_of_find?_eq_some hgo
          have heq : o = op := List.inj_on_of_nodup_map hnd ho hopmem he
          rw [heq, hstp] at hst
          exact OpStatus.noConfusion hst
        have hm := List.mem_map_of_mem (fun x => if x.id = op.id then f x else x) ho
        simpa [hne] using hm

/-- A completed server-deletion operation row, used as a concrete witness store. -/
def opCompletedW : Operation :=
  { id := 1, target := OpTarget.server, requestedBy := 5, serverId := some 2,
    channelId := none, status := OpStatus.completed, deletedMessages := 3,
    deletedChannels := 1, deletedMemberships := 0, deletedServers := 1,
    createdAt := 0, updatedAt := 9, completedAt := some 9 }

/-- A store holding just the completed operation row. -/
def dbCompletedW : DB :=
  { users := [], sessions := [], servers := [], memberships := [], channels := [],
    messages := [], operations := [opCompletedW], nextId := 10 }

theorem claim_C7_completed_absorbing_witness :
    runServerDeletionBatch 1 11 dbCompletedW = (dbCompletedW, []) ∧
    runChannelDeletionBatch 1 11 dbCompletedW = (dbCompletedW, []) ∧
    opCompletedW ∈ (runServerDeletionBatch 1 11 dbCompletedW).1.operations := by
  obtain ⟨h1, h2⟩ := claim_C7_completed_absorbing.1 dbCompletedW 1 11 opCompletedW rfl rfl
  obtain ⟨h3, _⟩ := claim_C7_completed_absorbing.2 dbCompletedW 1 11 opCompletedW
    (by decide) (by decide) rfl
  exact ⟨h1, h2, h3⟩

/-- C8: each of the four progress counters (`deletedMessages`,
`deletedChannels`, `deletedMemberships`, `deletedServers`) of every operation
row is monotonically non-decreasing across every batch-step invocation, hence
so is their sum across successive status reads. -/
theorem claim_C8_counters_monotone (db : DB) (qid now : Nat) (o : Operation)
    (hnd : (db.operations.map Operation.id).Nodup) (ho : o ∈ db.operations) :
    (∃ o' ∈ (runServerDeletionBatch qid now db).1.operations,
      o'.id = o.id ∧ countersLe o o' ∧
      o.deletedMessages + o.deletedChannels + o.deletedMemberships + o.deletedServers ≤
        o'.deletedMessages + o'.deletedChannels + o'.deletedMemberships + o'.deletedServers) ∧
    (∃ o' ∈ (runChannelDeletionBatch qid now db).1.operations,
      o'.id = o.id ∧ countersLe o o' ∧
      o.deletedMessages + o.deletedChannels + o.deletedMemberships + o.deletedServers ≤
        o'.deletedMessages + o'.deletedChannels + o'.deletedMemberships + o'.deletedServers) := by
  constructor
  · rcases runServerDeletionBatch_shape qid now db with hsame |
      ⟨op, f, hgo, hid, hstp, hfid, hcle, hmap⟩
    · exact ⟨o, hsame.symm ▸ ho, rfl, countersLe_refl o, le_rfl⟩
    · have hopmem : op ∈ db.operations := List.mem_of_find?_eq_some hgo
      obtain ⟨o', hmem, hid', hcle'⟩ := mono_from_patch hopmem hnd hfid hcle o ho
      refine ⟨o', hmap.symm ▸ hmem, hid', hcle', ?_⟩
      obtain ⟨a, b, c, d⟩ := hcle'
      omega
  · rcases runChannelDeletionBatch_shape qid now db with hsame |
      ⟨op, f, hgo, hid, hstp, hfid, hcle, hmap⟩
    · exact ⟨o, hsame.symm ▸ ho, rfl, countersLe_refl o, le_rfl⟩
    · have hopmem : op ∈ db.operations := List.mem_of_find?_eq_some hgo
      obtain ⟨o', hmem, hid', hcle'⟩ := mono_from_patch hopmem hnd hfid hcle o ho
      refine ⟨o', hmap.symm ▸ hmem, hid', hcle', ?_⟩
      obtain ⟨a, b, c, d⟩ := hcle'
      omega

/-- A live server-deletion scenario: one server, one channel, one message, one
in-progress operation. -/
def srvW : Server := { id := 1, name := "s", ownerId := 10, createdAt := 0 }

def chW : Channel :=
  { id := 2, creationTime := 1, serverId := 1, name := "general",
    nameLower := "general", createdBy := 10, createdAt := 5 }

def msgW : Message := { id := 3, channelId := 2, authorId := 10, createdAt := 6 }

def opW : Operation :=
  { id := 4, target := OpTarget.server, requestedBy := 10, serverId := some 1,
    channelId := none, status := OpStatus.in_progress, deletedMessages := 0,
    deletedChannels := 0, deletedMemberships := 0, deletedServers := 0,
    createdAt := 7, updatedAt := 7, completedAt := none }

def dbW : DB :=
  { users := [], sessions := [], servers := [srvW], memberships := [],
    channels := [chW], messages := [msgW], operations := [opW], nextId := 100 }

theorem claim_C8_counters_monotone_witness :
    ∃ o' ∈ (runServerDeletionBatch 4 8 dbW).1.operations,
      o'.id = opW.id ∧ countersLe opW o' := by
  obtain ⟨⟨o', hmem, hid, hcle, _⟩, _⟩ :=
    claim_C8_counters_monotone dbW 4 8 opW (by decide) (by decide)
  exact ⟨o', hmem, hid, hcle⟩

/-- C6: a server-batch invocation on an in-progress server operation whose
scanned channels still hold at least one message deletes between 1 and
`SERVER_DELETE_MESSAGE_BATCH_SIZE` (200) message rows and nothing else: the
channels, memberships, servers, sessions and users tables are untouched, no
operation row is created or removed, `deletedMessages` grows by exactly the
number of messages deleted, `updatedAt` is refreshed, the operation stays
`in_progress`, and the step re-schedules itself with zero delay. -/
theorem claim_C6_message_tier (db : DB) (opId now sid : Nat) (op : Operation) (srv : Server)
    (hgo : db.getOperation opId = some op)
    (hst : op.status = OpStatus.in_progress)
    (htg : op.target = OpTarget.server)
    (hsid : op.serverId = some sid)
    (hsrv : db.getServer sid = some srv)
    (hnd : (db.messages.map Message.id).Nodup)
    (hex : ∃ c ∈ (channelsByServer db sid).take SERVER_DELETE_CHANNEL_SCAN_BATCH_SIZE,
      messagesByChannel db c.id ≠ []) :
    ∃ d, 1 ≤ d ∧ d ≤ SERVER_DELETE_MESSAGE_BATCH_SIZE ∧
      (runServerDeletionBatch opId now db).1.messages.length + d = db.messages.length ∧
      (runServerDeletionBatch opId now db).1.channels = db.channels ∧
      (runServerDeletionBatch opId now db).1.memberships = db.memberships ∧
      (runServerDeletionBatch opId now db).1.servers = db.servers ∧
      (runServerDeletionBatch opId now db).1.sessions = db.sessions ∧
      (runServerDeletionBatch opId now db).1.users = db.users ∧
      (runServerDeletionBatch opId now db).1.operations.length = db.operations.length ∧
      (runServerDeletionBatch opId now db).1.getOperation opId =
        some { op with deletedMessages := op.deletedMessages + d, updatedAt := now } ∧
      ({ op with deletedMessages := op.deletedMessages + d, updatedAt := now } :
        Operation).status = OpStatus.in_progress ∧
      (runServerDeletionBatch opId now db).2 = [⟨SchedFn.serverBatch, 0, opId⟩] := by
  have hid : op.id = opId := by simpa using List.find?_some hgo
  have hpos : 0 < (deleteServerMessageBatch db sid).2 := deleteServerMessageBatch_pos db sid hex
  have hrun := runServer_messages opId now db op sid srv hgo hst htg hsid hsrv hpos
  have hops := deleteServerMessageBatch_operations db sid
  have hframe := deleteServerMessageBatch_frame db sid
  obtain ⟨d, hd1, hd2, hd3⟩ := deleteServerMessageBatch_count db sid hnd
  refine ⟨d, ?_, hd2, ?_, ?_, ?_, ?_, ?_, ?_, ?_, ?_, ?_, ?_⟩
  · omega
  · rw [hrun]
    show (deleteServerMessageBatch db sid).1.messages.length + d = db.messages.length
    exact hd3
  · rw [hrun]
    show (deleteServerMessageBatch db sid).1.channels = db.channels
    rw [hframe]
  · rw [hrun]
    show (deleteServerMessageBatch db sid).1.memberships = db.memberships
    rw [hframe]
  · rw [hrun]
    show (deleteServerMessageBatch db sid).1.servers = db.servers
    rw [hframe]
  · rw [hrun]
    show (deleteServerMessageBatch db sid).1.sessions = db.sessions
    rw [hframe]
  · rw [hrun]
    show (deleteServerMessageBatch db sid).1.users = db.users
    rw [hframe]
  · rw [hrun]
    show ((deleteServerMessageBatch db sid).1.operations.map _).length = db.operations.length
    rw [hops, List.length_map]
  · rw [hrun, hid]
    have hget1 : (deleteServerMessageBatch db sid).1.getOperation opId = some op := by
      unfold DB.getOperation at hgo ⊢
      rw [hops]
      exact hgo
    have hpatch := patchOp_getOperation (deleteServerMessageBatch db sid).1 op.id
      (fun o => { o with deletedMessages := op.deletedMessages + (deleteServerMessageBatch db sid).2, updatedAt := now })
      (fun o => rfl)
    rw [hid] at hpatch
    rw [hpatch, hget1, hd1]
    simp [hid]
  · rw [hst]
  · rw [hrun, hid]

theorem claim_C6_message_tier_witness :
    ∃ d, 1 ≤ d ∧ d ≤ SERVER_DELETE_MESSAGE_BATCH_SIZE ∧
      (runServerDeletionBatch 4 8 dbW).1.messages.length + d = dbW.messages.length ∧
      (runServerDeletionBatch 4 8 dbW).1.channels = dbW.channels ∧
      (runServerDeletionBatch 4 8 dbW).2 = [⟨SchedFn.serverBatch, 0, 4⟩] := by
  obtain ⟨d, h1, h2, h3, h4, _, _, _, _, _, _, _, h12⟩ :=
    claim_C6_message_tier dbW 4 8 1 opW srvW rfl rfl rfl rfl rfl (by decide) (by decide)
  exact ⟨d, h1, h2, h3, h4, h12⟩

/-! ## Permutation invariance and tie-break direction of the resolvers -/

theorem sessionKey_inj_on {l : List Session} (h : (l.map Session.creationTime).Nodup) :
    ∀ x ∈ l, ∀ y ∈ l, sessionKey x = sessionKey y → x = y := by
  intro x hx y hy hk
  unfold sessionKey at hk
  have h1 := toLex_inj.mp hk
  have h2 := congrArg Prod.snd h1
  have h3 := toLex_inj.mp h2
  have hct := congrArg Prod.snd h3
  exact List.inj_on_of_nodup_map h hx hy hct

theorem channelKey_inj_on {l : List Channel} (h : (l.map Channel.createdAt).Nodup) :
    ∀ x ∈ l, ∀ y ∈ l, channelKey x = channelKey y → x = y := by
  intro x hx y hy hk
  unfold channelKey at hk
  have hct : x.createdAt = y.createdAt := congrArg OrderDual.ofDual hk
  exact List.inj_on_of_nodup_map h hx hy hct

theorem selectMostRecentSession_perm (l₁ l₂ : List Session)
    (hp : l₁.Perm l₂) (hnd : (l₁.map Session.creationTime).Nodup) :
    selectMostRecentSession l₁ = selectMostRecentSession l₂ := by
  cases l₁ with
  | nil =>
    have h2 : l₂ = [] := hp.symm.eq_nil
    rw [h2]
  | cons a t =>
    cases l₂ with
    | nil => exact absurd hp.eq_nil (by simp)
    | cons b s =>
      rw [selectMostRecentSession_eq_bestBy, selectMostRecentSession_eq_bestBy]
      congr 1
      exact bestBy_perm sessionKey a b t s hp (sessionKey_inj_on hnd)

theorem canonicalChannel_perm (l₁ l₂ : List Channel)
    (hp : l₁.Perm l₂) (hnd : (l₁.map Channel.createdAt).Nodup) :
    canonicalChannel l₁ = canonicalChannel l₂ := by
  cases l₁ with
  | nil =>
    have h2 : l₂ = [] := hp.symm.eq_nil
    rw [h2]
  | cons a t =>
    cases l₂ with
    | nil => exact absurd hp.eq_nil (by simp)
    | cons b s =>
      rw [canonicalChannel_eq_bestBy, canonicalChannel_eq_bestBy]
      congr 1
      exact bestBy_perm channelKey a b t s hp (channelKey_inj_on hnd)

theorem selectMostRecentSession_mem {l : List Session} {s : Session}
    (h : selectMostRecentSession l = some s) : s ∈ l := by
  cases l with
  | nil => simp [selectMostRecentSession] at h
  | cons a t =>
    rw [selectMostRecentSession_eq_bestBy] at h
    have hm := bestBy_mem sessionKey a t
    rw [Option.some.injEq] at h
    rw [← h]
    exact hm

/-- Two channel rows sharing server, name and creation time, distinguishable
only by id and insertion sequence. -/
def chDupA : Channel :=
  { id := 1, creationTime := 1, serverId := 5, name := "a", nameLower := "a",
    createdBy := 9, createdAt := 10 }

def chDupB : Channel :=
  { id := 2, creationTime := 2, serverId := 5, name := "a", nameLower := "a",
    createdBy := 9, createdAt := 10 }

/-- C5 counterexample: the channel janitor's resolver has no insertion-sequence
tie-break, so on two rows with equal creation times the canonical row depends
on the order in which the index returned them. -/
theorem claim_C5_counterexample :
    ([chDupA, chDupB]).Perm [chDupB, chDupA] ∧
    canonicalChannel [chDupA, chDupB] ≠ canonicalChannel [chDupB, chDupA] := by
  decide

/-- C5 amended: the session resolver is permutation-invariant whenever the
store-assigned insertion sequences are distinct (its final tie-break); the
channel janitor's selector, which has no insertion-sequence tie-break, is
permutation-invariant only when the creation times themselves are distinct. -/
theorem claim_C5_reconciliation_determinism :
    (∀ (l₁ l₂ : List Session), l₁.Perm l₂ → (l₁.map Session.creationTime).Nodup →
      selectMostRecentSession l₁ = selectMostRecentSession l₂) ∧
    (∀ (l₁ l₂ : List Channel), l₁.Perm l₂ → (l₁.map Channel.createdAt).Nodup →
      canonicalChannel l₁ = canonicalChannel l₂) :=
  ⟨selectMostRecentSession_perm, canonicalChannel_perm⟩

/-- Two session rows sharing a token hash, with distinct expiry and insertion
sequence; the user they belong to. -/
def sessW1 : Session :=
  { id := 1, creationTime := 1, userId := 7, tokenHash := "h", createdAt := 0,
    expiresAt := 100 }

def sessW2 : Session :=
  { id := 2, creationTime := 2, userId := 7, tokenHash := "h", createdAt := 0,
    expiresAt := 50 }

theorem claim_C5_reconciliation_determinism_witness :
    selectMostRecentSession [sessW1, sessW2] = selectMostRecentSession [sessW2, sessW1] ∧
    canonicalChannel [chDupA, { chDupB with createdAt := 11 }] =
      canonicalChannel [{ chDupB with createdAt := 11 }, chDupA] := by
  constructor
  · exact claim_C5_reconciliation_determinism.1 [sessW1, sessW2] [sessW2, sessW1]
      (by decide) (by decide)
  · exact claim_C5_reconciliation_determinism.2 _ _ (by decide) (by decide)

/-- An earlier-created and a later-created channel row with the same natural
key, and likewise for friendships. -/
def chEarly : Channel :=
  { id := 1, creationTime := 1, serverId := 5, name := "a", nameLower := "a",
    createdBy := 9, createdAt := 1 }

def chLate : Channel :=
  { id := 2, creationTime := 2, serverId := 5, name := "a", nameLower := "a",
    createdBy := 9, createdAt := 2 }

def frEarly : Friendship :=
  { id := 1, creationTime := 1, userAId := 3, userBId := 4, pairKey := "3:4",
    createdAt := 1 }

def frLate : Friendship :=
  { id := 2, creationTime := 2, userAId := 3, userBId := 4, pairKey := "3:4",
    createdAt := 2 }

/-- C4 counterexample: on duplicate channel rows (and friendship rows) the
janitor keeps the EARLIEST-created row, not the latest-created one the claim
names. -/
theorem claim_C4_counterexample :
    canonicalChannel [chEarly, chLate] = some chEarly ∧
    chEarly.createdAt < chLate.createdAt ∧
    canonicalFriendship [frEarly, frLate] = some frEarly ∧
    frEarly.createdAt < frLate.createdAt := by
  decide

/-- C4 amended: for channels and friendships the canonical row kept by the
duplicate janitor is the EARLIEST-created row (minimal `createdAt`; on ties the
first of the index order), unlike users, where the resolver keeps the
latest-created row. -/
theorem claim_C4_canonical_rows :
    (∀ (a : Channel) (l : List Channel), ∃ m, canonicalChannel (a :: l) = some m ∧
      m ∈ a :: l ∧ ∀ x ∈ a :: l, m.createdAt ≤ x.createdAt) ∧
    (∀ (a : Friendship) (l : List Friendship), ∃ m, canonicalFriendship (a :: l) = some m ∧
      m ∈ a :: l ∧ ∀ x ∈ a :: l, m.createdAt ≤ x.createdAt) ∧
    (∀ (a : User) (l : List User), ∃ m, selectMostRecentUser (a :: l) = some m ∧
      m ∈ a :: l ∧ ∀ x ∈ a :: l, x.createdAt ≤ m.createdAt) := by
  refine ⟨?_, ?_, ?_⟩
  · intro a l
    refine ⟨bestBy channelKey a l, canonicalChannel_eq_bestBy a l, bestBy_mem _ _ _, ?_⟩
    intro x hx
    have hk := key_le_bestBy channelKey a l x hx
    simpa [channelKey, OrderDual.toDual_le_toDual] using hk
  · intro a l
    refine ⟨bestBy friendshipKey a l, canonicalFriendship_eq_bestBy a l, bestBy_mem _ _ _, ?_⟩
    intro x hx
    have hk := key_le_bestBy friendshipKey a l x hx
    simpa [friendshipKey, OrderDual.toDual_le_toDual] using hk
  · intro a l
    refine ⟨bestBy userKey a l, selectMostRecentUser_eq_bestBy a l, bestBy_mem _ _ _, ?_⟩
    intro x hx
    have hk := key_le_bestBy userKey a l x hx
    unfold userKey at hk
    rcases (Prod.Lex.le_iff _ _).mp hk with h | ⟨h, _⟩
    · exact le_of_lt h
    · exact le_of_eq h

theorem claim_C4_canonical_rows_witness :
    ∃ m, canonicalChannel [chEarly, chLate] = some m ∧ m ∈ [chEarly, chLate] ∧
      ∀ x ∈ [chEarly, chLate], m.createdAt ≤ x.createdAt :=
  claim_C4_canonical_rows.1 chEarly [chLate]

/-! ## Duplicate-session behaviour of the readers, and logout -/

theorem channels_auth_ok (hash : String → String) (db : DB) (now : Nat) (tok : String)
    (s : Session) (u : User)
    (hval : isValidSessionToken tok = true)
    (hsel : selectMostRecentSession (sessionsByTokenHash db (hash tok)) = some s)
    (hexp : ¬ s.expiresAt < now)
    (hu : db.getUser s.userId = some u) :
    Channels.getAuthenticatedUser hash db now tok = Except.ok u.id := by
  simp [Channels.getAuthenticatedUser, hval, hsel, hexp, hu]

theorem servers_auth_dup_fails (hash : String → String) (db : DB) (now : Nat) (tok : String)
    (hval : isValidSessionToken tok = true)
    (hdup : 2 ≤ (sessionsByTokenHash db (hash tok)).length) :
    Servers.getAuthenticatedUser hash db now tok =
      Except.error "unique() query returned more than one result" := by
  cases hl : sessionsByTokenHash db (hash tok) with
  | nil =>
    rw [hl] at hdup
    simp at hdup
  | cons a t =>
    cases t with
    | nil =>
      rw [hl] at hdup
      simp at hdup
    | cons b t' =>
      simp [Servers.getAuthenticatedUser, hval, hl, uniqueQ]

/-- A user and a store holding two live session rows with the same token hash. -/
def userW : User :=
  { id := 7, creationTime := 0, loginName := "u", loginNameLower := "u", createdAt := 0 }

def dbDupSessions : DB :=
  { users := [userW], sessions := [sessW1, sessW2], servers := [], memberships := [],
    channels := [], messages := [], operations := [], nextId := 50 }

/-- A syntactically valid session token (64 hexadecimal characters). -/
def tokW : String := "aaaaaaaaaaaaaaaaaaaaaaaaaaaaaaaaaaaaaaaaaaaaaaaaaaaaaaaaaaaaaaaa"

/-- The SHA-256 oracle of the witness stores: every token hashes to "h". -/
def hashW : String → String := fun _ => "h"

/-- C3 counterexample: with two session rows sharing the token hash, the
session reader of servers.ts (and the identical one of the channel-deletion
module) fails with the store's unique() violation instead of resolving the
tie, even though the very same store and token are accepted by the
resolver-based reader of channels.ts. -/
theorem claim_C3_counterexample :
    2 ≤ (sessionsByTokenHash dbDupSessions (hashW tokW)).length ∧
    Servers.getAuthenticatedUser hashW dbDupSessions 0 tokW =
      Except.error "unique() query returned more than one result" ∧
    Channels.getAuthenticatedUser hashW dbDupSessions 0 tokW = Except.ok 7 := by
  refine ⟨by decide, ?_, ?_⟩ <;> rfl

/-- C3 amended: the collect-and-resolve session readers (channels.ts, auth.ts,
the friends module) have no failure mode on duplicate rows — they succeed for
any number of rows sharing the hash whenever the canonical row is live and its
user exists — but the `.unique()`-based readers in servers.ts and the
channel-deletion module fail whenever more than one session row shares the
token hash. -/
theorem claim_C3_duplicate_session_readers :
    (∀ (hash : String → String) (db : DB) (now : Nat) (tok : String)
        (s : Session) (u : User),
      isValidSessionToken tok = true →
      selectMostRecentSession (sessionsByTokenHash db (hash tok)) = some s →
      ¬ s.expiresAt < now → db.getUser s.userId = some u →
      Channels.getAuthenticatedUser hash db now tok = Except.ok u.id) ∧
    (∀ (hash : String → String) (db : DB) (now : Nat) (tok : String),
      isValidSessionToken tok = true →
      2 ≤ (sessionsByTokenHash db (hash tok)).length →
      Servers.getAuthenticatedUser hash db now tok =
        Except.error "unique() query returned more than one result") :=
  ⟨channels_auth_ok, servers_auth_dup_fails⟩

theorem claim_C3_duplicate_session_readers_witness :
    Channels.getAuthenticatedUser hashW dbDupSessions 0 tokW = Except.ok 7 ∧
    Servers.getAuthenticatedUser hashW dbDupSessions 0 tokW =
      Except.error "unique() query returned more than one result" := by
  constructor
  · exact claim_C3_duplicate_session_readers.1 hashW dbDupSessions 0 tokW sessW1 userW
      (by decide) rfl (by decide) rfl
  · exact claim_C3_duplicate_session_readers.2 hashW dbDupSessions 0 tokW
      (by decide) (by decide)

theorem deleteSessionById_count (db : DB) (s : Session)
    (hmem : s ∈ db.sessions) (hnd : (db.sessions.map Session.id).Nodup) :
    (db.deleteSessionById s.id).sessions.length + 1 = db.sessions.length ∧
    (∀ x ∈ db.sessions, x ≠ s → x ∈ (db.deleteSessionById s.id).sessions) ∧
    s ∉ (db.deleteSessionById s.id).sessions := by
  have hinj := List.inj_on_of_nodup_map hnd
  refine ⟨?_, ?_, ?_⟩
  · show (db.sessions.filter (fun x => !(x.id == s.id))).length + 1 = db.sessions.length
    have hcg : ∀ x ∈ db.sessions,
        (!(x.id == s.id)) = (!((([s]).map Session.id).contains (Session.id x))) := by
      intro x hx
      by_cases he : x.id = s.id
      · simp [he]
      · simp [he, Ne.symm he]
    rw [List.filter_congr hcg]
    have hc := length_filter_not_contains_key Session.id
      (List.singleton_sublist.mpr hmem) hnd
    simpa using hc
  · intro x hx hne
    apply List.mem_filter.mpr
    refine ⟨hx, ?_⟩
    simp only [Bool.not_eq_true', beq_eq_false_iff_ne, ne_eq]
    exact fun he => hne (hinj hx hmem he)
  · intro hmem'
    have hpred := (List.mem_filter.mp hmem').2
    simp at hpred

theorem logout_deletes_canonical (hash : String → String) (tok : String) (db : DB)
    (s : Session) (hval : isValidSessionToken tok = true)
    (hsel : selectMostRecentSession (sessionsByTokenHash db (hash tok)) = some s) :
    Auth.logout hash tok db = (true, db.deleteSessionById s.id) := by
  simp [Auth.logout, hval, hsel]

theorem getSessionUser_ok (hash : String → String) (now : Nat) (tok : String) (db : DB)
    (s : Session) (u : User) (hval : isValidSessionToken tok = true)
    (hsel : selectMostRecentSession (sessionsByTokenHash db (hash tok)) = some s)
    (hexp : ¬ s.expiresAt < now)
    (hu : db.getUser s.userId = some u) :
    Auth.getSessionUser hash now tok db = some (u.id, u.loginName) := by
  simp [Auth.getSessionUser, hval, hsel, hexp, hu]

/-- C10 counterexample: with two rows sharing the hash (expiries 100 and 50),
logout at any time deletes the canonical row (the one expiring at 100); at
time 60 the token authenticated before the logout but no longer does after it,
refuting the unconditional "can still authenticate". -/
theorem claim_C10_counterexample :
    (Auth.logout hashW tokW dbDupSessions).1 = true ∧
    (Auth.logout hashW tokW dbDupSessions).2.sessions = [sessW2] ∧
    Auth.getSessionUser hashW 60 tokW dbDupSessions ≠ none ∧
    Auth.getSessionUser hashW 60 tokW (Auth.logout hashW tokW dbDupSessions).2 = none := by
  refine ⟨rfl, rfl, ?_, rfl⟩
  decide

/-- C10 amended: when n > 1 session rows share the token hash, logout deletes
exactly one row — the canonical per the session tie-break (latest expiry, then
latest creation, then insertion sequence) — leaves the other n−1 rows in place
and returns ok; afterwards the same token still authenticates precisely via
the surviving rows: it does whenever the canonical of the surviving rows is
unexpired and its user exists, and (per the counterexample) not otherwise. -/
theorem claim_C10_logout_duplicates :
    (∀ (hash : String → String) (tok : String) (db : DB) (s : Session),
      isValidSessionToken tok = true →
      selectMostRecentSession (sessionsByTokenHash db (hash tok)) = some s →
      (db.sessions.map Session.id).Nodup →
      Auth.logout hash tok db = (true, db.deleteSessionById s.id) ∧
      (db.deleteSessionById s.id).sessions.length + 1 = db.sessions.length ∧
      (∀ x ∈ db.sessions, x ≠ s → x ∈ (db.deleteSessionById s.id).sessions) ∧
      s ∉ (db.deleteSessionById s.id).sessions) ∧
    (∀ (hash : String → String) (now : Nat) (tok : String) (db : DB)
        (s : Session) (u : User),
      isValidSessionToken tok = true →
      selectMostRecentSession (sessionsByTokenHash db (hash tok)) = some s →
      ¬ s.expiresAt < now → db.getUser s.userId = some u →
      Auth.getSessionUser hash now tok db = some (u.id, u.loginName)) := by
  constructor
  · intro hash tok db s hval hsel hnd
    have hmem : s ∈ db.sessions := by
      have hm := selectMostRecentSession_mem hsel
      exact List.mem_of_mem_filter hm
    obtain ⟨h1, h2, h3⟩ := deleteSessionById_count db s hmem hnd
    exact ⟨logout_deletes_canonical hash tok db s hval hsel, h1, h2, h3⟩
  · intro hash now tok db s u hval hsel hexp hu
    exact getSessionUser_ok hash now tok db s u hval hsel hexp hu

theorem claim_C10_logout_duplicates_witness :
    Auth.logout hashW tokW dbDupSessions = (true, dbDupSessions.deleteSessionById sessW1.id) ∧
    Auth.getSessionUser hashW 20 tokW (dbDupSessions.deleteSessionById sessW1.id) =
      some (7, "u") := by
  constructor
  · exact (claim_C10_logout_duplicates.1 hashW tokW dbDupSessions sessW1
      (by decide) rfl (by decide)).1
  · exact claim_C10_logout_duplicates.2 hashW 20 tokW
      (dbDupSessions.deleteSessionById sessW1.id) sessW2 userW
      (by decide) rfl (by decide) rfl

/-! ## Authorization gate and idempotent re-entry of the deletion controllers -/

/-- C9: `deleteServer` invoked by an authenticated user who is not the server's
owner throws the permission error before any write: the store it leaves behind
is the input store, no deletionOperations row is inserted and no batch step is
scheduled. -/
theorem claim_C9_authorization_gate (hash : String → String) (now : Nat)
    (tok : String) (sid uid : Nat) (srv : Server) (db : DB)
    (hauth : Servers.getAuthenticatedUser hash db now tok = Except.ok uid)
    (hsrv : db.getServer sid = some srv)
    (hown : srv.ownerId ≠ uid) :
    (Servers.deleteServer hash now tok sid db).result =
      Except.error "Only the server owner can delete this server." ∧
    (Servers.deleteServer hash now tok sid db).db = db ∧
    (Servers.deleteServer hash now tok sid db).sched = [] := by
  refine ⟨?_, ?_, ?_⟩ <;> simp [Servers.deleteServer, hauth, hsrv, hown]

/-- A non-owner with a live session, used to witness the authorization gate. -/
def user11 : User :=
  { id := 11, creationTime := 0, loginName := "v", loginNameLower := "v", createdAt := 0 }

def sessU11 : Session :=
  { id := 21, creationTime := 3, userId := 11, tokenHash := "h", createdAt := 0,
    expiresAt := 100 }

def dbC9 : DB :=
  { users := [user11], sessions := [sessU11], servers := [srvW], memberships := [],
    channels := [], messages := [], operations := [], nextId := 60 }

theorem claim_C9_authorization_gate_witness :
    (Servers.deleteServer hashW 0 tokW 1 dbC9).result =
      Except.error "Only the server owner can delete this server." ∧
    (Servers.deleteServer hashW 0 tokW 1 dbC9).db = dbC9 ∧
    (Servers.deleteServer hashW 0 tokW 1 dbC9).sched = [] :=
  claim_C9_authorization_gate hashW 0 tokW 1 11 srvW dbC9 rfl rfl (by decide)

theorem latestStep_some (a o : Operation) : ∃ b, latestStep (some a) o = some b := by
  unfold latestStep
  by_cases h : a.updatedAt ≤ o.updatedAt
  · exact ⟨o, by simp [h]⟩
  · exact ⟨a, by simp [h]⟩

theorem foldl_latestStep_ne_none (t : List Operation) :
    ∀ a, t.foldl latestStep (some a) ≠ none := by
  induction t with
  | nil =>
    intro a h
    exact Option.noConfusion h
  | cons b t' ih =>
    intro a
    obtain ⟨c, hc⟩ := latestStep_some a b
    simp only [List.foldl_cons, hc]
    exact ih c

theorem latestByUpdatedAt_eq_nil {l : List Operation}
    (h : latestByUpdatedAt l = none) : l = [] := by
  cases l with
  | nil => rfl
  | cons a t =>
    exfalso
    unfold latestByUpdatedAt at h
    simp only [List.foldl_cons] at h
    exact foldl_latestStep_ne_none t a (by simpa [latestStep] using h)

theorem latest_filter_after_append (l : List Operation) (p : Operation → Bool)
    (x : Operation) (hn : latestByUpdatedAt (l.filter p) = none) (hx : p x = true) :
    latestByUpdatedAt ((l ++ [x]).filter p) = some x := by
  have hfil := latestByUpdatedAt_eq_nil hn
  rw [List.filter_append, hfil, List.nil_append,
    show ([x].filter p) = [x] from by simp [hx]]
  rfl

/-- Authentication reads only the sessions and users tables. -/
theorem servers_auth_congr (hash : String → String) (now : Nat) (tok : String)
    {db db' : DB} (hs : db'.sessions = db.sessions) (hu : db'.users = db.users) :
    Servers.getAuthenticatedUser hash db' now tok =
      Servers.getAuthenticatedUser hash db now tok := by
  unfold Servers.getAuthenticatedUser sessionsByTokenHash DB.getUser
  rw [hs, hu]

/-- The fresh operation row `deleteServer` inserts. -/
def freshServerOp (uid sid now nextId : Nat) : Operation :=
  { id := nextId, target := OpTarget.server, requestedBy := uid, serverId := some sid,
    channelId := none, status := OpStatus.in_progress, deletedMessages := 0,
    deletedChannels := 0, deletedMemberships := 0, deletedServers := 0,
    createdAt := now, updatedAt := now, completedAt := none }

/-- The literal response `deleteServer` returns after inserting. -/
def freshServerResponse (sid nextId : Nat) : ServerDeletionResponse :=
  { ok := true, operationId := nextId, serverId := some sid,
    status := OpStatus.in_progress, deletedMessages := 0, deletedChannels := 0,
    deletedMemberships := 0, deletedServers := 0, completedAt := none }

/-- Re-entry of `deleteServer` while an operation for the target is still in
progress: the first call creates and schedules; the second call inserts
nothing, schedules nothing, and returns the snapshot of the existing
operation, hence the same operationId. -/
theorem deleteServer_reentry (hash : String → String) (now1 now2 : Nat)
    (tok : String) (sid uid : Nat) (srv : Server) (db : DB)
    (h1 : Servers.getAuthenticatedUser hash db now1 tok = Except.ok uid)
    (h2 : Servers.getAuthenticatedUser hash db now2 tok = Except.ok uid)
    (h3 : db.getServer sid = some srv) (h4 : srv.ownerId = uid)
    (h5 : getActiveServerDeletionOperation db sid = none) :
    ∃ r1 r2,
      (Servers.deleteServer hash now1 tok sid db).result = Except.ok r1 ∧
      r1.operationId = db.nextId ∧
      (Servers.deleteServer hash now1 tok sid db).sched =
        [⟨SchedFn.serverBatch, 0, db.nextId⟩] ∧
      (Servers.deleteServer hash now2 tok sid
        (Servers.deleteServer hash now1 tok sid db).db).result = Except.ok r2 ∧
      r2.operationId = r1.operationId ∧
      (Servers.deleteServer hash now2 tok sid
        (Servers.deleteServer hash now1 tok sid db).db).db =
        (Servers.deleteServer hash now1 tok sid db).db ∧
      (Servers.deleteServer hash now2 tok sid
        (Servers.deleteServer hash now1 tok sid db).db).sched = [] := by
  set newOp1 : Operation := freshServerOp uid sid now1 db.nextId with hnewOp1
  set db1 : DB :=
    { db with operations := db.operations ++ [newOp1], nextId := db.nextId + 1 }
    with hdb1
  have hcall1 : Servers.deleteServer hash now1 tok sid db =
      ⟨Except.ok (freshServerResponse sid db.nextId), db1,
        [⟨SchedFn.serverBatch, 0, db.nextId⟩]⟩ := by
    rw [hdb1, hnewOp1]
    simp [Servers.deleteServer, h1, h3, h4, h5, freshServerOp, freshServerResponse]
  have hauth2 : Servers.getAuthenticatedUser hash db1 now2 tok = Except.ok uid := by
    rw [servers_auth_congr hash now2 tok rfl rfl]
    exact h2
  have hsrv2 : db1.getServer sid = some srv := h3
  have hact2 : getActiveServerDeletionOperation db1 sid = some newOp1 := by
    unfold getActiveServerDeletionOperation at h5 ⊢
    exact latest_filter_after_append db.operations _ newOp1 h5
      (by rw [hnewOp1]; simp [freshServerOp])
  have hcall2 : Servers.deleteServer hash now2 tok sid db1 =
      ⟨Except.ok (toServerDeletionResponse newOp1), db1, []⟩ := by
    simp [Servers.deleteServer, hauth2, hsrv2, h4, hact2]
  refine ⟨freshServerResponse sid db.nextId, toServerDeletionResponse newOp1,
    ?_, rfl, ?_, ?_, ?_, ?_, ?_⟩
  · rw [hcall1]
  · rw [hcall1]
  · rw [hcall1]
    show (Servers.deleteServer hash now2 tok sid db1).result =
      Except.ok (toServerDeletionResponse newOp1)
    rw [hcall2]
  · rw [hnewOp1]
    rfl
  · rw [hcall1]
    show (Servers.deleteServer hash now2 tok sid db1).db = db1
    rw [hcall2]
  · rw [hcall1]
    show (Servers.deleteServer hash now2 tok sid db1).sched = []
    rw [hcall2]

/-- The fresh operation row `deleteChannel` inserts. -/
def freshChannelOp (uid : Nat) (ch : Channel) (now nextId : Nat) : Operation :=
  { id := nextId, target := OpTarget.channel, requestedBy := uid,
    serverId := some ch.serverId, channelId := some ch.id,
    status := OpStatus.in_progress, deletedMessages := 0, deletedChannels := 0,
    deletedMemberships := 0, deletedServers := 0, createdAt := now,
    updatedAt := now, completedAt := none }

/-- The literal response `deleteChannel` returns after inserting. -/
def freshChannelResponse (ch : Channel) (nextId : Nat) : ChannelDeletionResponse :=
  { ok := true, operationId := nextId, channelId := some ch.id,
    serverId := some ch.serverId, status := OpStatus.in_progress,
    deletedMessages := 0, deletedChannels := 0, completedAt := none }

/-- Membership checks read only the servers and memberships tables. -/
theorem requireMembership_congr (sid uid : Nat) {db db' : DB}
    (hv : db'.servers = db.servers) (hm : db'.memberships = db.memberships) :
    ChannelsDel.requireServerMembership db' sid uid =
      ChannelsDel.requireServerMembership db sid uid := by
  unfold ChannelsDel.requireServerMembership DB.getServer
  rw [hv, hm]

/-- Re-entry of `deleteChannel` (owner path) while an operation for the channel
is still in progress, as for `deleteServer`. -/
theorem deleteChannel_reentry (hash : String → String) (now1 now2 : Nat)
    (tok : String) (cid uid : Nat) (ch : Channel) (srv : Server) (db : DB)
    (h1 : Servers.getAuthenticatedUser hash db now1 tok = Except.ok uid)
    (h2 : Servers.getAuthenticatedUser hash db now2 tok = Except.ok uid)
    (h3 : db.getChannel cid = some ch)
    (h4 : db.getServer ch.serverId = some srv) (h5 : srv.ownerId = uid)
    (h6 : getActiveChannelDeletionOperation db ch.id = none) :
    ∃ r1 r2,
      (ChannelsDel.deleteChannel hash now1 tok cid db).result = Except.ok r1 ∧
      r1.operationId = db.nextId ∧
      (ChannelsDel.deleteChannel hash now1 tok cid db).sched =
        [⟨SchedFn.channelBatch, 0, db.nextId⟩] ∧
      (ChannelsDel.deleteChannel hash now2 tok cid
        (ChannelsDel.deleteChannel hash now1 tok cid db).db).result = Except.ok r2 ∧
      r2.operationId = r1.operationId ∧
      (ChannelsDel.deleteChannel hash now2 tok cid
        (ChannelsDel.deleteChannel hash now1 tok cid db).db).db =
        (ChannelsDel.deleteChannel hash now1 tok cid db).db ∧
      (ChannelsDel.deleteChannel hash now2 tok cid
        (ChannelsDel.deleteChannel hash now1 tok cid db).db).sched = [] := by
  set newOp1 : Operation := freshChannelOp uid ch now1 db.nextId with hnewOp1
  set db1 : DB :=
    { db with operations := db.operations ++ [newOp1], nextId := db.nextId + 1 }
    with hdb1
  have hreq : ChannelsDel.requireServerMembership db ch.serverId uid =
      Except.ok Role.owner := by
    simp [ChannelsDel.requireServerMembership, h4, h5]
  have hcall1 : ChannelsDel.deleteChannel hash now1 tok cid db =
      ⟨Except.ok (freshChannelResponse ch db.nextId), db1,
        [⟨SchedFn.channelBatch, 0, db.nextId⟩]⟩ := by
    rw [hdb1, hnewOp1]
    simp [ChannelsDel.deleteChannel, h1, h3, hreq, h6, freshChannelOp,
      freshChannelResponse]
  have hauth2 : Servers.getAuthenticatedUser hash db1 now2 tok = Except.ok uid := by
    rw [servers_auth_congr hash now2 tok rfl rfl]
    exact h2
  have hch2 : db1.getChannel cid = some ch := h3
  have hreq2 : ChannelsDel.requireServerMembership db1 ch.serverId uid =
      Except.ok Role.owner := by
    rw [requireMembership_congr ch.serverId uid rfl rfl]
    exact hreq
  have hact2 : getActiveChannelDeletionOperation db1 ch.id = some newOp1 := by
    unfold getActiveChannelDeletionOperation at h6 ⊢
    exact latest_filter_after_append db.operations _ newOp1 h6
      (by rw [hnewOp1]; simp [freshChannelOp])
  have hcall2 : ChannelsDel.deleteChannel hash now2 tok cid db1 =
      ⟨Except.ok (toChannelDeletionResponse newOp1), db1, []⟩ := by
    simp [ChannelsDel.deleteChannel, hauth2, hch2, hreq2, hact2]
  refine ⟨freshChannelResponse ch db.nextId, toChannelDeletionResponse newOp1,
    ?_, rfl, ?_, ?_, ?_, ?_, ?_⟩
  · rw [hcall1]
  · rw [hcall1]
  · rw [hcall1]
    show (ChannelsDel.deleteChannel hash now2 tok cid db1).result =
      Except.ok (toChannelDeletionResponse newOp1)
    rw [hcall2]
  · rw [hnewOp1]
    rfl
  · rw [hcall1]
    show (ChannelsDel.deleteChannel hash now2 tok cid db1).db = db1
    rw [hcall2]
  · rw [hcall1]
    show (ChannelsDel.deleteChannel hash now2 tok cid db1).sched = []
    rw [hcall2]

/-- C2: a second deletion request on a target whose deletion operation is still
in progress inserts no new deletionOperations row and schedules no batch step;
it returns the snapshot of the existing in-progress operation, so both calls
return the same operationId — for `deleteServer` and `deleteChannel` alike. -/
theorem claim_C2_idempotent_reentry :
    (∀ (hash : String → String) (now1 now2 : Nat) (tok : String) (sid uid : Nat)
        (srv : Server) (db : DB),
      Servers.getAuthenticatedUser hash db now1 tok = Except.ok uid →
      Servers.getAuthenticatedUser hash db now2 tok = Except.ok uid →
      db.getServer sid = some srv → srv.ownerId = uid →
      getActiveServerDeletionOperation db sid = none →
      ∃ r1 r2,
        (Servers.deleteServer hash now1 tok sid db).result = Except.ok r1 ∧
        r1.operationId = db.nextId ∧
        (Servers.deleteServer hash now1 tok sid db).sched =
          [⟨SchedFn.serverBatch, 0, db.nextId⟩] ∧
        (Servers.deleteServer hash now2 tok sid
          (Servers.deleteServer hash now1 tok sid db).db).result = Except.ok r2 ∧
        r2.operationId = r1.operationId ∧
        (Servers.deleteServer hash now2 tok sid
          (Servers.deleteServer hash now1 tok sid db).db).db =
          (Servers.deleteServer hash now1 tok sid db).db ∧
        (Servers.deleteServer hash now2 tok sid
          (Servers.deleteServer hash now1 tok sid db).db).sched = []) ∧
    (∀ (hash : String → String) (now1 now2 : Nat) (tok : String) (cid uid : Nat)
        (ch : Channel) (srv : Server) (db : DB),
      Servers.getAuthenticatedUser hash db now1 tok = Except.ok uid →
      Servers.getAuthenticatedUser hash db now2 tok = Except.ok uid →
      db.getChannel cid = some ch →
      db.getServer ch.serverId = some srv → srv.ownerId = uid →
      getActiveChannelDeletionOperation db ch.id = none →
      ∃ r1 r2,
        (ChannelsDel.deleteChannel hash now1 tok cid db).result = Except.ok r1 ∧
        r1.operationId = db.nextId ∧
        (ChannelsDel.deleteChannel hash now1 tok cid db).sched =
          [⟨SchedFn.channelBatch, 0, db.nextId⟩] ∧
        (ChannelsDel.deleteChannel hash now2 tok cid
          (ChannelsDel.deleteChannel hash now1 tok cid db).db).result = Except.ok r2 ∧
        r2.operationId = r1.operationId ∧
        (ChannelsDel.deleteChannel hash now2 tok cid
          (ChannelsDel.deleteChannel hash now1 tok cid db).db).db =
          (ChannelsDel.deleteChannel hash now1 tok cid db).db ∧
        (ChannelsDel.deleteChannel hash now2 tok cid
          (ChannelsDel.deleteChannel hash now1 tok cid db).db).sched = []) := by
  constructor
  · intro hash now1 now2 tok sid uid srv db h1 h2 h3 h4 h5
    exact deleteServer_reentry hash now1 now2 tok sid uid srv db h1 h2 h3 h4 h5
  · intro hash now1 now2 tok cid uid ch srv db h1 h2 h3 h4 h5 h6
    exact deleteChannel_reentry hash now1 now2 tok cid uid ch srv db h1 h2 h3 h4 h5 h6

/-- The server owner, their live session, and a store with a server and a
channel but no deletion operation yet. -/
def owner10 : User :=
  { id := 10, creationTime := 0, loginName := "o", loginNameLower := "o", createdAt := 0 }

def sessOwner : Session :=
  { id := 22, creationTime := 4, userId := 10, tokenHash := "h", createdAt := 0,
    expiresAt := 100 }

def dbC2 : DB :=
  { users := [owner10], sessions := [sessOwner], servers := [srvW], memberships := [],
    channels := [chW], messages := [], operations := [], nextId := 70 }

theorem claim_C2_idempotent_reentry_witness :
    (∃ r1 r2, (Servers.deleteServer hashW 0 tokW 1 dbC2).result = Except.ok r1 ∧
      (Servers.deleteServer hashW 1 tokW 1
        (Servers.deleteServer hashW 0 tokW 1 dbC2).db).result = Except.ok r2 ∧
      r2.operationId = r1.operationId ∧
      (Servers.deleteServer hashW 1 tokW 1
        (Servers.deleteServer hashW 0 tokW 1 dbC2).db).db =
        (Servers.deleteServer hashW 0 tokW 1 dbC2).db ∧
      (Servers.deleteServer hashW 1 tokW 1
        (Servers.deleteServer hashW 0 tokW 1 dbC2).db).sched = []) ∧
    (∃ r1 r2, (ChannelsDel.deleteChannel hashW 0 tokW 2 dbC2).result = Except.ok r1 ∧
      (ChannelsDel.deleteChannel hashW 1 tokW 2
        (ChannelsDel.deleteChannel hashW 0 tokW 2 dbC2).db).result = Except.ok r2 ∧
      r2.operationId = r1.operationId) := by
  constructor
  · obtain ⟨r1, r2, ha, _, _, hd, he, hf, hg⟩ :=
      claim_C2_idempotent_reentry.1 hashW 0 1 tokW 1 10 srvW dbC2 rfl rfl rfl rfl rfl
    exact ⟨r1, r2, ha, hd, he, hf, hg⟩
  · obtain ⟨r1, r2, ha, _, _, hd, he, _, _⟩ :=
      claim_C2_idempotent_reentry.2 hashW 0 1 tokW 2 10 chW srvW dbC2 rfl rfl rfl rfl rfl rfl
    exact ⟨r1, r2, ha, hd, he⟩

/-! ## The eventual-completion claim at a server with more than
`SERVER_DELETE_CHANNEL_SCAN_BATCH_SIZE` channels -/

/-- The i-th channel of the C1 store: ids 101..121, creation order = index
order. -/
def chanC1 (i : Nat) : Channel :=
  { id := 101 + i, creationTime := i, serverId := 1, name := "c", nameLower := "c",
    createdBy := 10, createdAt := i }

/-- A server with 21 channels whose only message lives in the 21st channel —
one more channel than the message tier scans per invocation. -/
def dbC1 : DB :=
  { users := [], sessions := [],
    servers := [{ id := 1, name := "s", ownerId := 10, createdAt := 0 }],
    memberships := [],
    channels := (List.range 21).map chanC1,
    messages := [{ id := 900, channelId := 121, authorId := 10, createdAt := 0 }],
    operations := [{ id := 500, target := OpTarget.server, requestedBy := 10,
                     serverId := some 1, channelId := none,
                     status := OpStatus.in_progress, deletedMessages := 0,
                     deletedChannels := 0, deletedMemberships := 0,
                     deletedServers := 0, createdAt := 0, updatedAt := 0,
                     completedAt := none }],
    nextId := 1000 }

def dbC1run1 : DB := (runServerDeletionBatch 500 1 dbC1).1

def dbC1run2 : DB := (runServerDeletionBatch 500 2 dbC1run1).1

/-- C1 at the failing input: the store starts with M = 1 message under the
server's 21st channel.  The message tier scans only the first 20 channels,
finds nothing, so the channel tier deletes all 21 channels (its cap is 40)
while the message still exists; the next invocation completes the operation.
The operation ends `completed` with deletedMessages = 0 instead of 1 — and the
message row is still in the store, orphaned — contradicting the claimed final
counters and the claimed non-retrievability of the server's messages. -/
theorem claim_C1_orphaned_messages :
    dbC1.messages.length = 1 ∧
    (∃ c ∈ dbC1.channels, (messagesByChannel dbC1 c.id).length = 1) ∧
    (dbC1run2.getOperation 500).map (fun o =>
      (o.status, o.deletedMessages, o.deletedChannels, o.deletedMemberships,
        o.deletedServers)) = some (OpStatus.completed, 0, 21, 0, 1) ∧
    dbC1run2.messages.length = 1 ∧
    dbC1run2.servers = [] ∧
    dbC1run2.channels = [] ∧
    (runServerDeletionBatch 500 2 dbC1run1).2 = [] := by
  refine ⟨rfl, by decide, ?_, rfl, rfl, rfl, rfl⟩
  rfl
